import Mathlib

/-!
# httpd.c: a shallow embedding of the request pipeline

The C program is a forking static file server.  This development embeds the
functions that handle one connection, `service` (bounded header read),
`process` (request-line parsing and path resolution) and `send_file` /
`send_error` (response generation), as well as `main` (listener and
supervisor), and states the properties of the specification over them.

Conventions of the embedding:

* a C `char` is a `Char`; a block of memory is a `List Char`; a pointer into a
  block is an offset (`Nat`), a possibly-null pointer is an `Option Nat`;
* reading memory goes through `peek`, which yields the terminator beyond the
  end of the block, so every block is a terminated C string;
* system calls are recorded, in order, in a trace of `Syscall`s; their results
  come from an environment `Env` (files) and a connection `Conn` (reads);
* undefined behaviour (a null pointer read, a store past the end of an array)
  ends the run: nothing is claimed about what the program does after it.
-/

namespace Httpd

/-! ## Constants (httpd.c lines 31-36) -/

/-- The C string terminator, `'\0'`. -/
def NUL : Char := '\x00'

/-- Line 31: `#define HTTP_BAD_REQUEST`. -/
def HTTP_BAD_REQUEST : List Char := "HTTP/1.0 404 Not Found\r\n".toList

/-- Line 32: `#define HTTP_GOOD_REQUEST`. -/
def HTTP_GOOD_REQUEST : List Char := "HTTP/1.0 200\r\n".toList

/-- Line 33: `#define HTTP_CONTENT_TYPE`. -/
def HTTP_CONTENT_TYPE : List Char := "Content-Type: text/html\r\n".toList

/-- Line 35: `#define MAX_REQUEST_SIZE`. -/
def MAX_REQUEST_SIZE : Nat := 4096

/-- Line 36: `#define DEFAULT_PATH`. -/
def DEFAULT_PATH : List Char := "index.html".toList

/-! ## C library primitives used by the program -/

/-- Reading `mem[i]`; past the end of the block the terminator is read. -/
def peek (mem : List Char) (i : Nat) : Char := mem.getD i NUL

/-- The C string that starts at offset `s`: the bytes up to the first terminator. -/
def cstr (mem : List Char) (s : Nat) : List Char :=
  (mem.drop s).takeWhile (fun c => c != NUL)

/-- C `strlen` of the string held by an object. -/
def strlen (s : List Char) : Nat := (cstr s 0).length

/-- Decimal digits of `n`, most significant first (`fuel` bounds the digit count). -/
def ld_digits : Nat → Nat → List Char
  | 0, _ => []
  | fuel + 1, n =>
    if n < 10 then [Nat.digitChar n]
    else ld_digits fuel (n / 10) ++ [Nat.digitChar (n % 10)]

/-- The `%ld` conversion of printf for a non-negative value. -/
def fmt_ld (n : Nat) : List Char := ld_digits (n + 1) n

/-- Reading a decimal numeral back, as C `atol` does on digits. -/
def ld_value (digits : List Char) : Nat :=
  digits.foldl (fun acc c => 10 * acc + (c.toNat - 48)) 0

/-- Line 34: the format `"Content-Length: %ld\r\n\r\n"` applied to its argument. -/
def HTTP_CONTENT_LENGTH (n : Nat) : List Char :=
  "Content-Length: ".toList ++ fmt_ld n ++ "\r\n\r\n".toList

/-- C `snprintf(dst, size, ...)`: the string left in `dst` is the formatted text
cut to `size - 1` bytes. -/
def snprintf (size : Nat) (formatted : List Char) : List Char :=
  formatted.take (size - 1)

/-- Scan for `strchr`: `i` is the offset of the head of the list. -/
def strchr_from (c : Char) : List Char → Nat → Option Nat
  | [], _ => none
  | x :: xs, i =>
    if x = c then some i
    else if x = NUL then none
    else strchr_from c xs (i + 1)

/-- C `strchr(mem + s, c)`: offset of the first `c` before the terminator. -/
def strchr (mem : List Char) (s : Nat) (c : Char) : Option Nat :=
  strchr_from c (mem.drop s) s

/-- C `strspn(l, " ")`: length of the leading run of spaces. -/
def strspn_sp (l : List Char) : Nat :=
  (l.takeWhile (fun c => c == ' ')).length

/-- C `strcspn(l, " ")`: length of the leading run free of spaces (stops at the
terminator). -/
def strcspn_sp (l : List Char) : Nat :=
  (l.takeWhile (fun c => c != ' ' && c != NUL)).length

/-- C `strtok(.., " ")` resumed at offset `s` of `mem`: the token's offset (or
none for a null pointer), the memory after the call, and the saved offset
for the next call. -/
def strtok (mem : List Char) (s : Nat) : Option Nat × List Char × Nat :=
  let b := s + strspn_sp (mem.drop s)
  if peek mem b = NUL then (none, mem, b)
  else
    let e := b + strcspn_sp (mem.drop b)
    if peek mem e = NUL then (some b, mem, e)
    else (some b, mem.set e NUL, e + 1)

/-! ## System calls -/

/-- One system (or stderr) call issued by the worker, with its arguments. -/
inductive Syscall where
  /-- Call `write(fd, buf, count)`; `buf` is the object the pointer refers to. -/
  | write (fd : Int) (buf : List Char) (count : Nat)
  /-- Call `open(path, O_RDONLY)`. -/
  | sys_open (path : List Char)
  /-- Call `fstat(fd, &statinfo)`. -/
  | fstat (fd : Int)
  /-- Call `sendfile(out_fd, in_fd, NULL, count)`. -/
  | sendfile (out_fd in_fd : Int) (count : Nat)
  /-- Call `close(fd)`. -/
  | close (fd : Int)
  /-- Call `perror(..)`: a diagnostic on stderr. -/
  | perror
  deriving DecidableEq

/-- Results of the file-side system calls. -/
structure Env where
  /-- Result of `open(path, O_RDONLY)`: a descriptor, or a negative value. -/
  open_result : List Char → Int
  /-- Result of `fstat`: `st_size` on success, none when it returns `< 0`. -/
  fstat_result : Int → Option Nat
  /-- Result of `write(fd, buf, count)`. -/
  write_result : Int → List Char → Nat → Int
  /-- Result of `sendfile(out_fd, in_fd, NULL, count)`. -/
  sendfile_result : Int → Int → Nat → Int

/-- How a function of the worker ends. -/
inductive Result where
  /-- The run met undefined behaviour: a null pointer was read, or a byte was
  stored past the end of an array.  Nothing is known of what follows. -/
  | crash
  /-- The function returned `value` after issuing `trace`. -/
  | ret (value : Int) (trace : List Syscall)
  deriving DecidableEq

/-- Bytes a completed `write(fd, buf, count)` puts on the wire, when `beyond`
is what memory holds after the terminator of `buf`. -/
def wire_bytes (beyond : List Char) (buf : List Char) (count : Nat) : List Char :=
  (buf ++ NUL :: beyond).take count

/-- Bytes a completed `sendfile(.., in_fd, NULL, count)` transfers from a file
with the given content whose offset is `pos`. -/
def sendfile_bytes (content : List Char) (pos count : Nat) : List Char :=
  (content.drop pos).take count

/-! ## The responder (httpd.c lines 44-80) -/

/-- Lines 44-48: `send_error`. -/
def send_error (fd : Int) : Result :=
  .ret 0 [.write fd HTTP_BAD_REQUEST (strlen HTTP_BAD_REQUEST),
          .write fd HTTP_CONTENT_TYPE (strlen HTTP_CONTENT_TYPE)]

/-- Lines 50-80: `send_file`. -/
def send_file (env : Env) (fd : Int) (path : List Char) : Result :=
  let iofd := env.open_result path
  if iofd < 0 then
    .ret 0 [.sys_open path,
            .write fd HTTP_BAD_REQUEST (strlen HTTP_BAD_REQUEST),
            .write fd HTTP_CONTENT_TYPE (strlen HTTP_CONTENT_TYPE)]
  else
    match env.fstat_result iofd with
    | none =>
      .ret 0 [.sys_open path, .fstat iofd,
              .write fd HTTP_BAD_REQUEST (strlen HTTP_BAD_REQUEST),
              .write fd HTTP_CONTENT_TYPE (strlen HTTP_CONTENT_TYPE),
              .close iofd]
    | some st_size =>
      let length := snprintf MAX_REQUEST_SIZE (HTTP_CONTENT_LENGTH st_size)
      let head := [Syscall.sys_open path, .fstat iofd,
                   .write fd HTTP_GOOD_REQUEST (strlen HTTP_BAD_REQUEST),
                   .write fd HTTP_CONTENT_TYPE (strlen HTTP_CONTENT_TYPE),
                   .write fd length (strlen length)]
      if env.write_result fd length (strlen length) < 0 then
        .ret 0 (head ++ [.perror, .close iofd])
      else if env.sendfile_result fd iofd st_size < 0 then
        .ret 0 (head ++ [.sendfile fd iofd st_size, .perror, .close iofd])
      else
        .ret 0 (head ++ [.sendfile fd iofd st_size, .close iofd])

/-! ## The request parser (httpd.c lines 82-116) -/

/-- What `process` decides before it responds. -/
inductive Decision where
  /-- A null token pointer is handed to `strcmp` or indexed. -/
  | fault
  /-- The branch `return send_error(fd)`. -/
  | bad_request
  /-- The branch `return send_file(fd, path)`. -/
  | serve (path : List Char)
  deriving DecidableEq

/-- Lines 102-113 of `process`: the method and version tests and the rewriting
of the path, on the memory left by the tokeniser and its three token pointers. -/
def check_request (mem : List Char) (method path http : Option Nat) : Decision :=
  match method with
  | none => .fault
  | some m =>
    if cstr mem m ≠ "GET".toList then .bad_request
    else
      match http with
      | none => .fault
      | some v =>
        if cstr mem v ≠ "HTTP/1.0".toList ∧ cstr mem v ≠ "HTTP/1.1".toList then .bad_request
        else
          match path with
          | none => .fault
          | some p =>
            if peek mem p = '/' ∧ peek mem (p + 1) = NUL then .serve DEFAULT_PATH
            else if peek mem p = '/' then
              .serve (snprintf MAX_REQUEST_SIZE ('.' :: cstr mem p))
            else .serve (cstr mem p)

/-- Lines 83-113 of `process`: the search for the first carriage return, the
three calls of strtok, the cut at the carriage return, then the tests. -/
def process_decision (header : List Char) : Decision :=
  let eol := strchr header 0 '\r'
  let (method, mem1, save1) := strtok header 0
  let (path, mem2, save2) := strtok mem1 save1
  let (http, mem3, _) := strtok mem2 save2
  let mem :=
    match eol with
    | some e => mem3.set e NUL
    | none => mem3
  check_request mem method path http

/-- Lines 82-116: `process`. -/
def process (env : Env) (fd : Int) (header : List Char) : Result :=
  match process_decision header with
  | .fault => .crash
  | .bad_request => send_error fd
  | .serve path => send_file env fd path

/-! ## The request reader (httpd.c lines 118-146) -/

/-- The client side of a connection: the bytes it sends, and for each `read`
call either an error (none) or how many bytes are available to it. -/
structure Conn where
  stream : List Char
  sched : List (Option Nat)

/-- Lines 135-136: the four-byte test at offset `i`. -/
def is_term (buffer : List Char) (i : Nat) : Bool :=
  peek buffer i == '\r' && peek buffer (i + 1) == '\n' &&
  peek buffer (i + 2) == '\r' && peek buffer (i + 3) == '\n'

/-- Outcome of the scan loop. -/
inductive Scan where
  /-- The test succeeded at this offset. -/
  | found (at_ : Nat)
  /-- The loop condition failed with `scanned` at this value. -/
  | exhausted (scanned : Nat)
  deriving DecidableEq

/-- Lines 134-140: `for( ; scanned < readbytes-3; scanned++ )`, the comparison
being one of C ints.  `fuel` bounds the iterations. -/
def scan (buffer : List Char) (readbytes : Nat) : Nat → Nat → Scan
  | 0, scanned => .exhausted scanned
  | fuel + 1, scanned =>
    if scanned + 3 < readbytes then
      if is_term buffer scanned then .found scanned
      else scan buffer readbytes fuel (scanned + 1)
    else .exhausted scanned

/-- Storing `data` at `buffer[i ..]`, as `read` does. -/
def store_at (buffer : List Char) : Nat → List Char → List Char
  | _, [] => buffer
  | i, c :: cs => store_at (buffer.set i c) (i + 1) cs

/-- How the read loop of `service` ends. -/
inductive Outcome where
  /-- Line 127: `return -1` after a failed read. -/
  | read_failed
  /-- Line 145: `return -1`, the loop ended without a terminator. -/
  | header_too_long
  /-- Line 138: `return process(fd, buffer)` with this buffer. -/
  | handed (buffer : List Char)
  /-- Line 129 stored past the end of `buffer`: undefined behaviour. -/
  | undefined
  deriving DecidableEq

/-- The end of the read loop together with every buffer index it stored to. -/
structure ReadRun where
  outcome : Outcome
  stores : List Nat
  deriving DecidableEq

/-- Lines 123-145: the read loop.  The result is none when the schedule of
reads ends while the loop is still running.  The store of line 129 is tested
against the size of the array: past its end the behaviour is undefined and the
run ends there, with the index on record in `stores`. -/
def service_loop : List (Option Nat) → List Char → List Char → Nat → Nat → List Nat →
    Option ReadRun
  | sched, stream, buffer, readbytes, scanned, stores =>
    if readbytes < MAX_REQUEST_SIZE - 1 then
      match sched with
      | [] => none
      | none :: _ => some ⟨.read_failed, stores⟩
      | some avail :: rest =>
        let data := stream.take (min avail (MAX_REQUEST_SIZE - 1 - readbytes))
        let cur := data.length
        let stores1 := stores ++ List.range' readbytes cur ++ [readbytes + cur + 1]
        if readbytes + cur + 1 < MAX_REQUEST_SIZE then
          let buffer1 := (store_at buffer readbytes data).set (readbytes + cur + 1) NUL
          let readbytes1 := readbytes + cur
          match scan buffer1 readbytes1 readbytes1 scanned with
          | .found i => some ⟨.handed (buffer1.set i NUL), stores1 ++ [i]⟩
          | .exhausted scanned1 =>
            service_loop rest (stream.drop cur) buffer1 readbytes1 scanned1 stores1
        else some ⟨.undefined, stores1⟩
    else some ⟨.header_too_long, stores⟩

/-- Lines 119-145: the read loop from its initial state; `buffer0` is what the
uninitialised array holds on entry. -/
def service_read (buffer0 : List Char) (conn : Conn) : Option ReadRun :=
  service_loop conn.sched conn.stream buffer0 0 0 []

/-- Lines 118-146: `service`. -/
def service (env : Env) (fd : Int) (buffer0 : List Char) (conn : Conn) : Option Result :=
  match service_read buffer0 conn with
  | none => none
  | some run =>
    match run.outcome with
    | .read_failed => some (.ret (-1) [.perror])
    | .header_too_long => some (.ret (-1) [])
    | .handed buffer => some (process env fd buffer)
    | .undefined => some .crash

/-! ## Notions of the specification -/

/-- A run of spaces (possibly empty). -/
def is_spaces (sp : List Char) : Prop := ∀ x ∈ sp, x = ' '

/-- A space-delimited token: non-empty, free of spaces and of the terminator. -/
def is_token (tok : List Char) : Prop := tok ≠ [] ∧ ∀ x ∈ tok, x ≠ ' ' ∧ x ≠ NUL

instance (sp : List Char) : Decidable (is_spaces sp) :=
  inferInstanceAs (Decidable (∀ x ∈ sp, x = ' '))

instance (tok : List Char) : Decidable (is_token tok) :=
  inferInstanceAs (Decidable (tok ≠ [] ∧ ∀ x ∈ tok, x ≠ ' ' ∧ x ≠ NUL))

/-- The token `tok`, which starts at offset `s` of the header, as it reads once
the header's first carriage return is replaced by a string end: cut there
when that carriage return lies inside the token, whole otherwise. -/
def cut_at_cr (header : List Char) (s : Nat) (tok : List Char) : List Char :=
  match strchr header 0 '\r' with
  | some e => if s ≤ e then tok.take (e - s) else tok
  | none => tok

/-- Lines 107-112 of `process` as a function of the string `path` points to. -/
def rewrite_path (target : List Char) : List Char :=
  if target = ['/'] then DEFAULT_PATH
  else if target.head? = some '/' then snprintf MAX_REQUEST_SIZE ('.' :: target)
  else target

/-- Path resolution in the words of the specification: `/` maps to the default
document, any other target starting with `/` gets a `.` prepended, every other
target is used as it is. -/
def resolve (target : List Char) : List Char :=
  if target = ['/'] then DEFAULT_PATH
  else if target.head? = some '/' then '.' :: target
  else target

/-- A header whose first three space-delimited tokens are `m`, `t` and `v`:
`sp0`, `sp1`, `sp2` are runs of spaces and `c`, a space or the terminator,
ends the third token; `r` is the rest of the memory. -/
def header_of (sp0 m sp1 t sp2 v : List Char) (c : Char) (r : List Char) : List Char :=
  sp0 ++ (m ++ ' ' :: (sp1 ++ (t ++ ' ' :: (sp2 ++ (v ++ c :: r)))))

/-! ## The listener and the supervisor (httpd.c lines 148-228) -/

/-- One call issued by `main`, with the descriptor it acts on. -/
inductive MainCall where
  | socket
  | setsockopt (fd : Int)
  | bind (fd : Int)
  | listen (fd : Int) (backlog : Nat)
  | accept (fd : Int)
  | fork
  | close (fd : Int)
  | service (fd : Int)
  | waitpid
  | perror
  deriving DecidableEq

/-- The results met in one turn of the service loop: those of `accept` and
`fork`, what `service` returns if this process is the child, and the results
of the successive `waitpid` calls of the reaping loop. -/
structure Round where
  accept_result : Int
  fork_result : Int
  service_result : Int
  waitpid_results : List Int

/-- The results of the system calls of `main`. -/
structure MainEnv where
  socket_result : Int
  setsockopt_result : Int
  bind_result : Int
  listen_result : Int
  rounds : List Round

/-- How `main` returns: its exit status, whether the returning process is a
forked worker, and the calls issued by that process. -/
structure Exit where
  status : Int
  worker : Bool
  trace : List MainCall
  deriving DecidableEq

/-- Lines 213-223: the reaping loop; none when the recorded results end while
`waitpid` keeps returning children. -/
def reap : List Int → Option (List MainCall)
  | [] => none
  | pid :: rest =>
    if pid < 0 then some [.waitpid, .perror]
    else if pid = 0 then some [.waitpid]
    else (reap rest).map (fun calls => MainCall.waitpid :: calls)

/-- The calls `calls` followed by the rest of the run. -/
def after (calls : List MainCall) : Option Exit → Option Exit
  | none => none
  | some e => some ⟨e.status, e.worker, calls ++ e.trace⟩

/-- Lines 185-227: the service loop and the final `return 254`; none when the
recorded rounds end while the loop is still running. -/
def main_loop (serversock : Int) : List Round → Option Exit
  | [] => none
  | r :: rest =>
    if r.accept_result < 0 then
      some ⟨254, false, [.accept serversock, .perror]⟩
    else if r.fork_result < 0 then
      after [.accept serversock, .fork, .perror, .close r.accept_result]
        (main_loop serversock rest)
    else if r.fork_result > 0 then
      match reap r.waitpid_results with
      | none => none
      | some calls =>
        after ([.accept serversock, .fork, .close r.accept_result] ++ calls)
          (main_loop serversock rest)
    else
      some ⟨0, true, [.accept serversock, .fork, .close serversock,
                      .service r.accept_result]⟩

/-- Lines 148-228: `main`. -/
def main (env : MainEnv) : Option Exit :=
  if env.socket_result < 0 then some ⟨1, false, [.socket, .perror]⟩
  else
    let setup := [MainCall.socket, .setsockopt env.socket_result] ++
      (if env.setsockopt_result < 0 then [MainCall.perror] else [])
    if env.bind_result < 0 then
      some ⟨1, false, setup ++ [.bind env.socket_result, .perror]⟩
    else if env.listen_result < 0 then
      some ⟨1, false, setup ++ [.bind env.socket_result, .listen env.socket_result 10,
                                .perror]⟩
    else
      after (setup ++ [.bind env.socket_result, .listen env.socket_result 10])
        (main_loop env.socket_result env.rounds)

/-- The calls of `main` up to and including `setsockopt`, with its diagnostic
when it fails. -/
def setup_calls (env : MainEnv) : List MainCall :=
  [.socket, .setsockopt env.socket_result] ++
    (if env.setsockopt_result < 0 then [.perror] else [])

/-- The calls of one turn in which the parent goes on, as the specification
words them: accept and fork; when the fork failed, a diagnostic and the close
of the accepted connection; when a child was forked, the close of the parent's
copy of the connection and the calls of the reaping loop. -/
def parent_calls (serversock : Int) (r : Round) : List MainCall :=
  if r.fork_result < 0 then
    [.accept serversock, .fork, .perror, .close r.accept_result]
  else
    [.accept serversock, .fork, .close r.accept_result] ++ (reap r.waitpid_results).getD []

/-- The calls of successive turns in which the parent goes on. -/
def parents_calls (serversock : Int) : List Round → List MainCall
  | [] => []
  | r :: rest => parent_calls serversock r ++ parents_calls serversock rest

/-- A turn of the service loop after which the parent goes on to the next
`accept`: the fork failed, or it returned a child and the reaping loop ended. -/
def is_parent_round (r : Round) : Prop :=
  0 ≤ r.accept_result ∧
    (r.fork_result < 0 ∨ (0 < r.fork_result ∧ (reap r.waitpid_results).isSome = true))

instance (r : Round) : Decidable (is_parent_round r) :=
  inferInstanceAs (Decidable (0 ≤ r.accept_result ∧
    (r.fork_result < 0 ∨ (0 < r.fork_result ∧ (reap r.waitpid_results).isSome = true))))

/-! ## Reading a trace -/

/-- The system calls a result was reached with (none are on record after a
crash). -/
def trace_of : Result → List Syscall
  | .crash => []
  | .ret _ trace => trace

/-- The bytes the completed writes of a trace put on descriptor `fd`, when
`beyond` is what memory holds after the terminator of each written object. -/
def written (beyond : List Char) (fd : Int) : List Syscall → List Char
  | [] => []
  | .write fd1 buf count :: rest =>
    if fd1 = fd then wire_bytes beyond buf count ++ written beyond fd rest
    else written beyond fd rest
  | _ :: rest => written beyond fd rest

/-- The bytes a trace puts on descriptor `fd` when each of its calls completes:
those of the writes to `fd` and those of the bulk transfers to `fd`.  `content`
gives the bytes of the file behind a descriptor and `pos` is the offset of the
file being sent, which each transfer advances. -/
def response (beyond : List Char) (content : Int → List Char) (fd : Int) :
    Nat → List Syscall → List Char
  | _, [] => []
  | pos, .write fd1 buf count :: rest =>
    if fd1 = fd then wire_bytes beyond buf count ++ response beyond content fd pos rest
    else response beyond content fd pos rest
  | pos, .sendfile out_fd in_fd count :: rest =>
    if out_fd = fd then
      sendfile_bytes (content in_fd) pos count ++ response beyond content fd (pos + count) rest
    else response beyond content fd (pos + count) rest
  | pos, _ :: rest => response beyond content fd pos rest

/-- The descriptors a trace closes, in order. -/
def closes : List Syscall → List Int
  | [] => []
  | .close fd :: rest => fd :: closes rest
  | _ :: rest => closes rest

/-! ## Concrete inputs used by the evaluations below -/

/-- An environment in which every path opens as descriptor 3, the size query
reports 12 bytes and every write and transfer completes. -/
def env_ok : Env where
  open_result := fun _ => 3
  fstat_result := fun _ => some 12
  write_result := fun _ _ count => count
  sendfile_result := fun _ _ count => count

/-- A client stream of 4095 bytes, none of them a carriage return. -/
def stream_full : List Char := List.replicate 4095 'A'

/-- A complete request followed by 5000 more bytes. -/
def stream_padded : List Char :=
  "GET / HTTP/1.0\r\n\r\n".toList ++ List.replicate 5000 'A'

/-- An array of `MAX_REQUEST_SIZE` bytes, all zero. -/
def buffer_zero : List Char := List.replicate MAX_REQUEST_SIZE NUL

/-- System call results for `main`: setting the socket option fails, the
first connection cannot be forked for, the second `accept` fails. -/
def env_fork_fails : MainEnv where
  socket_result := 3
  setsockopt_result := -1
  bind_result := 0
  listen_result := 0
  rounds := [⟨4, -1, 0, []⟩, ⟨-1, 0, 0, []⟩]

/-- An environment in which every path opens as descriptor 3 with a reported
size of 12 bytes, and every write fails. -/
def env_write_fails : Env where
  open_result := fun _ => 3
  fstat_result := fun _ => some 12
  write_result := fun _ _ _ => -1
  sendfile_result := fun _ _ count => count

/-- An environment in which no path can be opened. -/
def env_missing : Env where
  open_result := fun _ => -1
  fstat_result := fun _ => none
  write_result := fun _ _ count => count
  sendfile_result := fun _ _ count => count

/-! ## The responder: evaluation -/

/-- C1 (defect in the code): for `index.html` opening as descriptor 3 with a
reported size of 12, `send_file` issues the status-line write with count 24,
the length of `HTTP_BAD_REQUEST`, whereas `HTTP_GOOD_REQUEST` is 14 bytes long;
whatever follows the literal in memory, the fifteenth byte that call transfers
is the literal's terminator, so the bytes on the wire are not the status line
followed directly by the content-type header. -/
theorem C1_status_write_count :
    send_file env_ok 4 DEFAULT_PATH =
      .ret 0 [.sys_open DEFAULT_PATH, .fstat 3,
              .write 4 HTTP_GOOD_REQUEST 24,
              .write 4 HTTP_CONTENT_TYPE 25,
              .write 4 "Content-Length: 12\r\n\r\n".toList 22,
              .sendfile 4 3 12, .close 3] ∧
    strlen HTTP_GOOD_REQUEST = 14 ∧ strlen HTTP_BAD_REQUEST = 24 ∧
    ∀ beyond : List Char,
      (wire_bytes beyond HTTP_GOOD_REQUEST 24).take 15 = HTTP_GOOD_REQUEST ++ [NUL] :=
  ⟨by decide, by decide, by decide, fun _ => rfl⟩

/-! ## The request reader: stores -/

/-- A read that brings the count of received bytes to `MAX_REQUEST_SIZE - 1`
is followed by a store to index `MAX_REQUEST_SIZE`, past the end of the array. -/
theorem service_loop_fill (avail : Nat) (rest : List (Option Nat)) (stream buffer : List Char)
    (rb sc : Nat) (stores : List Nat) (hrb : rb < MAX_REQUEST_SIZE - 1)
    (hfill : rb + (stream.take (min avail (MAX_REQUEST_SIZE - 1 - rb))).length
      = MAX_REQUEST_SIZE - 1) :
    ∃ stores1, service_loop (some avail :: rest) stream buffer rb sc stores
        = some ⟨.undefined, stores1⟩ ∧
      MAX_REQUEST_SIZE ∈ stores1 := by
  unfold service_loop
  rw [if_pos hrb]
  simp only
  generalize (stream.take (min avail (MAX_REQUEST_SIZE - 1 - rb))).length = L at hfill ⊢
  have hmax : rb + L + 1 = MAX_REQUEST_SIZE := by omega
  rw [if_neg (by omega), hmax]
  exact ⟨_, rfl, List.mem_append_right _ (List.mem_singleton_self _)⟩

/-- C2 (defect in the code): when a single read delivers 4095 bytes, the
terminator stored after the read goes to index 0 + 4095 + 1 = 4096, which is
not below the capacity 4096 of the array. -/
theorem C2_store_past_capacity :
    ∃ run, service_read buffer_zero ⟨stream_full, [some 4095]⟩ = some run ∧
      4096 ∈ run.stores ∧ ¬ (4096 < MAX_REQUEST_SIZE) := by
  obtain ⟨stores1, h1, h2⟩ := service_loop_fill 4095 [] stream_full buffer_zero 0 0 []
    (by decide)
    (by rw [List.length_take, show stream_full.length = 4095 from List.length_replicate _ _]
        decide)
  exact ⟨_, h1, h2, by decide⟩

/-! ## The request parser: evaluation -/

/-- C3 (defect in the code): on the header `GET` the version pointer is null
when `strcmp` reads it, on the empty header the method pointer is null, and on
`GET /` the version pointer is null; `process` crashes instead of responding. -/
theorem C3_null_token_read :
    process_decision "GET".toList = .fault ∧
    process_decision [] = .fault ∧
    process_decision "GET /".toList = .fault ∧
    process env_ok 4 "GET".toList = .crash := by
  decide

/-- C4 (defect in the code): two headers with the same request line `GET /`
and different second lines are decided differently: one serves `index.html`,
the other gets the error response. -/
theorem C4_later_line_decides :
    "GET /\r\nHost: HTTP/1.1".toList.takeWhile (fun c => c != '\r')
      = "GET /\r\nHost: example".toList.takeWhile (fun c => c != '\r') ∧
    process_decision "GET /\r\nHost: HTTP/1.1".toList = .serve DEFAULT_PATH ∧
    process_decision "GET /\r\nHost: example".toList = .bad_request := by
  decide

/-! ## The request reader: the array, the scan and the loop -/

theorem peek_set (buf : List Char) (i j : Nat) (c : Char) :
    peek (buf.set i c) j = if i = j ∧ i < buf.length then c else peek buf j := by
  unfold peek
  rw [List.getD_eq_getElem?_getD, List.getD_eq_getElem?_getD, List.getElem?_set]
  by_cases h : i = j
  · subst h
    by_cases h2 : i < buf.length
    · simp [h2]
    · simp [h2, List.getElem?_eq_none (Nat.le_of_not_lt h2)]
  · simp [h]

theorem store_at_length (data : List Char) : ∀ (buf : List Char) (i : Nat),
    (store_at buf i data).length = buf.length := by
  induction data with
  | nil => intro buf i; rfl
  | cons c cs ih => intro buf i; simp [store_at, ih]

theorem peek_store_at (data : List Char) : ∀ (buf : List Char) (i j : Nat),
    i + data.length ≤ buf.length →
    peek (store_at buf i data) j
      = if i ≤ j ∧ j < i + data.length then data.getD (j - i) NUL else peek buf j := by
  induction data with
  | nil =>
    intro buf i j _
    have : ¬ (i ≤ j ∧ j < i + ([] : List Char).length) := by simp
    rw [if_neg this]; rfl
  | cons c cs ih =>
    intro buf i j h
    simp only [List.length_cons] at h
    rw [store_at, ih _ _ _ (by simp; omega), peek_set]
    by_cases h1 : i = j
    · subst h1
      simp
      omega
    · by_cases h2 : i + 1 ≤ j ∧ j < i + 1 + cs.length
      · have : i ≤ j ∧ j < i + (c :: cs).length := by simp; omega
        rw [if_pos h2, if_pos this]
        obtain ⟨k, hk⟩ : ∃ k, j = i + 1 + k := ⟨j - (i+1), by omega⟩
        subst hk
        have e1 : i + 1 + k - (i + 1) = k := by omega
        have e2 : i + 1 + k - i = k + 1 := by omega
        rw [e1, e2]; rfl
      · have : ¬ (i ≤ j ∧ j < i + (c :: cs).length) := by simp; omega
        rw [if_neg h2, if_neg this]
        simp [h1]

theorem peek_take_drop (S : List Char) (rb n j : Nat) (h : j < n) :
    ((S.drop rb).take n).getD j NUL = peek S (rb + j) := by
  unfold peek
  rw [List.getD_eq_getElem?_getD, List.getD_eq_getElem?_getD, List.getElem?_take_of_lt h, List.getElem?_drop]

theorem is_term_congr (B S : List Char) (rb q : Nat)
    (hinv : ∀ i, i < rb → peek B i = peek S i) (hq : q + 3 < rb) :
    is_term B q = is_term S q := by
  unfold is_term
  rw [hinv q (by omega), hinv (q + 1) (by omega), hinv (q + 2) (by omega),
    hinv (q + 3) (by omega)]

/-- The scan loop without a match stops at `readbytes - 3`. -/
theorem scan_exhausted (buf : List Char) (rb : Nat) : ∀ (fuel sc : Nat),
    rb ≤ sc + fuel →
    (∀ q, sc ≤ q → q + 3 < rb → is_term buf q = false) →
    scan buf rb fuel sc = .exhausted (max sc (rb - 3)) := by
  intro fuel
  induction fuel with
  | zero =>
    intro sc h _
    have : max sc (rb - 3) = sc := by omega
    rw [this]; rfl
  | succ n ih =>
    intro sc h hno
    unfold scan
    by_cases hc : sc + 3 < rb
    · rw [if_pos hc, hno sc (le_refl _) hc]
      simp only [Bool.false_eq_true, if_false]
      rw [ih (sc + 1) (by omega) (fun q h1 h2 => hno q (by omega) h2)]
      congr 1; omega
    · rw [if_neg hc]
      congr 1; omega

/-- The scan loop stops at the first match. -/
theorem scan_found (buf : List Char) (rb p : Nat) (hp : p + 3 < rb)
    (hterm : is_term buf p = true) : ∀ (fuel sc : Nat),
    rb ≤ sc + fuel → sc ≤ p →
    (∀ q, sc ≤ q → q < p → is_term buf q = false) →
    scan buf rb fuel sc = .found p := by
  intro fuel
  induction fuel with
  | zero => intro sc h h2 _; omega
  | succ n ih =>
    intro sc h hle hno
    unfold scan
    rw [if_pos (by omega)]
    by_cases he : sc = p
    · subst he; rw [hterm]; rfl
    · rw [hno sc (le_refl _) (by omega)]
      simp only [Bool.false_eq_true, if_false]
      exact ih (sc + 1) (by omega) (by omega) (fun q h1 h2 => hno q (by omega) h2)

/-- What one read leaves in the array: its length is unchanged and the bytes
received so far are a prefix of the client stream. -/
theorem read_inv (S buffer : List Char) (rb n : Nat)
    (hlen : buffer.length = MAX_REQUEST_SIZE) (hn : rb + n ≤ MAX_REQUEST_SIZE - 1)
    (hinv : ∀ i, i < rb → peek buffer i = peek S i) :
    ((store_at buffer rb ((S.drop rb).take n)).set
        (rb + ((S.drop rb).take n).length + 1) NUL).length = MAX_REQUEST_SIZE ∧
    ∀ i, i < rb + ((S.drop rb).take n).length →
      peek ((store_at buffer rb ((S.drop rb).take n)).set
        (rb + ((S.drop rb).take n).length + 1) NUL) i = peek S i := by
  have hl : ((S.drop rb).take n).length ≤ n := List.length_take_le _ _
  constructor
  · rw [List.length_set, store_at_length, hlen]
  · intro i hi
    rw [peek_set, if_neg (by omega), peek_store_at _ _ _ _ (by omega)]
    by_cases h : rb ≤ i
    · rw [if_pos ⟨h, hi⟩]
      have := peek_take_drop S rb n (i - rb) (by
        have := List.length_take_le n (S.drop rb); omega)
      rw [this]; congr 1; omega
    · rw [if_neg (by omega)]
      exact hinv i (by omega)


/-- A match of the four-byte test lies inside the block. -/
theorem is_term_length (S : List Char) (p : Nat) (h : is_term S p = true) :
    p + 3 < S.length := by
  by_contra hc
  have : peek S (p + 3) = NUL := by
    unfold peek
    rw [List.getD_eq_getElem?_getD, List.getElem?_eq_none (by omega)]; rfl
  unfold is_term at h
  rw [this] at h
  simp [NUL] at h

/-- The read loop, started in a state that holds a prefix of the stream shorter
than the end of its first terminator, hands the buffer over, cut at that
terminator, provided the reads deliver fewer than `MAX_REQUEST_SIZE - 1` bytes
in all, so that no store goes past the array. -/
theorem loop_hands_over (S : List Char) (p : Nat) (hp : p + 4 ≤ MAX_REQUEST_SIZE - 1)
    (hterm : is_term S p = true) (hfirst : ∀ q, q < p → is_term S q = false) :
    ∀ (sizes : List Nat), (∀ k ∈ sizes, 1 ≤ k) →
    ∀ (buffer : List Char) (rb : Nat) (stores : List Nat),
      buffer.length = MAX_REQUEST_SIZE → rb < p + 4 →
      (∀ i, i < rb → peek buffer i = peek S i) → p + 4 ≤ rb + sizes.sum →
      rb + sizes.sum < MAX_REQUEST_SIZE - 1 →
      ∃ buf stores1,
        service_loop (sizes.map some) (S.drop rb) buffer rb (rb - 3) stores
          = some ⟨.handed buf, stores1⟩ ∧
        buf.length = MAX_REQUEST_SIZE ∧ (∀ i, i < p → peek buf i = peek S i) ∧
        peek buf p = NUL := by
  have hS := is_term_length S p hterm
  intro sizes
  induction sizes with
  | nil => intro _ buffer rb stores _ hrb _ hsum _; simp at hsum; omega
  | cons k rest ih =>
    intro hk buffer rb stores hlen hrb hinv hsum hbound
    have hk1 : 1 ≤ k := hk k (List.mem_cons_self _ _)
    simp only [List.sum_cons] at hsum hbound
    obtain ⟨hlen1, hinv1⟩ := read_inv S buffer rb (min k (MAX_REQUEST_SIZE - 1 - rb)) hlen
      (by omega) hinv
    have hcur : ((S.drop rb).take (min k (MAX_REQUEST_SIZE - 1 - rb))).length
        = min (min k (MAX_REQUEST_SIZE - 1 - rb)) (S.length - rb) := by
      rw [List.length_take, List.length_drop]
    unfold service_loop
    rw [if_pos (by omega)]
    simp only [List.map_cons]
    generalize ((S.drop rb).take (min k (MAX_REQUEST_SIZE - 1 - rb))) = data at *
    generalize hB : (store_at buffer rb data).set (rb + data.length + 1) NUL = B at *
    generalize hc : data.length = cur at *
    rw [if_pos (by omega)]
    by_cases hfull : p + 4 ≤ rb + cur
    · have hBterm : is_term B p = true := by
        rw [is_term_congr B S (rb + cur) p hinv1 (by omega)]; exact hterm
      have hBno : ∀ q, rb - 3 ≤ q → q < p → is_term B q = false := by
        intro q _ hq
        rw [is_term_congr B S (rb + cur) q hinv1 (by omega)]; exact hfirst q hq
      rw [scan_found B (rb + cur) p (by omega) hBterm (rb + cur) (rb - 3) (by omega) (by omega)
        hBno]
      refine ⟨_, _, rfl, ?_, ?_, ?_⟩
      · rw [List.length_set, hlen1]
      · intro i hi
        rw [peek_set, if_neg (by omega)]
        exact hinv1 i (by omega)
      · rw [peek_set, if_pos ⟨rfl, by omega⟩]
    · have hBno : ∀ q, rb - 3 ≤ q → q + 3 < rb + cur → is_term B q = false := by
        intro q _ hq
        rw [is_term_congr B S (rb + cur) q hinv1 hq]; exact hfirst q (by omega)
      rw [scan_exhausted B (rb + cur) (rb + cur) (rb - 3) (by omega) hBno]
      simp only
      have e1 : max (rb - 3) (rb + cur - 3) = rb + cur - 3 := by omega
      rw [e1, List.drop_drop]
      have hcurk : cur ≤ k := by omega
      exact ih (fun k hk2 => hk k (List.mem_cons_of_mem _ hk2)) B (rb + cur) _ hlen1
        (by omega) hinv1 (by omega) (by omega)


/-- The read loop on a stream with no terminator ending in its first 4095
bytes goes on until a read brings the count of received bytes to 4095; the
store after that read goes to index `MAX_REQUEST_SIZE`, past the end of the
array, before the loop can reach its header-too-long exit. -/
theorem loop_overruns (S : List Char) (hS : MAX_REQUEST_SIZE - 1 ≤ S.length)
    (hno : ∀ q, q + 4 ≤ MAX_REQUEST_SIZE - 1 → is_term S q = false) :
    ∀ (sizes : List Nat), (∀ k ∈ sizes, 1 ≤ k) →
    ∀ (buffer : List Char) (rb : Nat) (stores : List Nat),
      buffer.length = MAX_REQUEST_SIZE → rb < MAX_REQUEST_SIZE - 1 →
      (∀ i, i < rb → peek buffer i = peek S i) → MAX_REQUEST_SIZE - 1 ≤ rb + sizes.sum →
      ∃ stores1,
        service_loop (sizes.map some) (S.drop rb) buffer rb (rb - 3) stores
          = some ⟨.undefined, stores1⟩ ∧ MAX_REQUEST_SIZE ∈ stores1 := by
  intro sizes
  induction sizes with
  | nil =>
    intro _ buffer rb stores _ hrb _ hsum
    simp only [List.sum_nil] at hsum
    omega
  | cons k rest ih =>
    intro hk buffer rb stores hlen hlt hinv hsum
    have hk1 : 1 ≤ k := hk k (List.mem_cons_self _ _)
    simp only [List.sum_cons] at hsum
    obtain ⟨hlen1, hinv1⟩ := read_inv S buffer rb (min k (MAX_REQUEST_SIZE - 1 - rb)) hlen
      (by omega) hinv
    have hcur : ((S.drop rb).take (min k (MAX_REQUEST_SIZE - 1 - rb))).length
        = min (min k (MAX_REQUEST_SIZE - 1 - rb)) (S.length - rb) := by
      rw [List.length_take, List.length_drop]
    unfold service_loop
    rw [if_pos hlt]
    simp only [List.map_cons]
    generalize ((S.drop rb).take (min k (MAX_REQUEST_SIZE - 1 - rb))) = data at *
    generalize hB : (store_at buffer rb data).set (rb + data.length + 1) NUL = B at *
    generalize hc : data.length = cur at *
    by_cases hroom : rb + cur + 1 < MAX_REQUEST_SIZE
    · rw [if_pos hroom]
      have hBno : ∀ q, rb - 3 ≤ q → q + 3 < rb + cur → is_term B q = false := by
        intro q _ hq
        rw [is_term_congr B S (rb + cur) q hinv1 hq]; exact hno q (by omega)
      rw [scan_exhausted B (rb + cur) (rb + cur) (rb - 3) (by omega) hBno]
      simp only
      have e1 : max (rb - 3) (rb + cur - 3) = rb + cur - 3 := by omega
      rw [e1, List.drop_drop]
      exact ih (fun k hk2 => hk k (List.mem_cons_of_mem _ hk2)) B (rb + cur) _ hlen1
        (by omega) hinv1 (by omega)
    · rw [if_neg hroom]
      have hmax : rb + cur + 1 = MAX_REQUEST_SIZE := by omega
      refine ⟨_, rfl, ?_⟩
      rw [hmax]
      exact List.mem_append_right _ (List.mem_singleton_self _)

/-! ## The request parser: the tokeniser on a header with known tokens -/

theorem peek_append_cons (a : List Char) (c : Char) (r : List Char) :
    peek (a ++ c :: r) a.length = c := by
  unfold peek
  induction a with
  | nil => rfl
  | cons x xs ih => simpa using ih

theorem set_append_cons (a : List Char) (c x : Char) (r : List Char) :
    (a ++ c :: r).set a.length x = a ++ x :: r := by
  induction a with
  | nil => rfl
  | cons y ys ih => simp [ih]

theorem strspn_sp_append (sp rest : List Char) (hsp : ∀ x ∈ sp, x = ' ')
    (hrest : ∀ x ∈ rest.head?, x ≠ ' ') : strspn_sp (sp ++ rest) = sp.length := by
  unfold strspn_sp
  rw [List.takeWhile_append_of_pos (fun a ha => by simp [hsp a ha])]
  cases rest with
  | nil => simp
  | cons x xs =>
    have : x ≠ ' ' := hrest x (by simp)
    simp [List.takeWhile_cons, this]

theorem strcspn_sp_append (tok : List Char) (c : Char) (r : List Char)
    (htok : ∀ x ∈ tok, x ≠ ' ' ∧ x ≠ NUL) (hc : c = ' ' ∨ c = NUL) :
    strcspn_sp (tok ++ c :: r) = tok.length := by
  unfold strcspn_sp
  rw [List.takeWhile_append_of_pos (fun a ha => by simp [htok a ha])]
  rcases hc with h | h <;> simp [List.takeWhile_cons, h]

/-- A call of strtok that finds a token: the token is `tok`, found after the
run of spaces `sp`, and the byte after it becomes the terminator. -/
theorem strtok_token (mem pre sp tok : List Char) (c : Char) (r : List Char) (s : Nat)
    (hmem : mem = pre ++ (sp ++ (tok ++ c :: r))) (hs : s = pre.length)
    (hsp : ∀ x ∈ sp, x = ' ') (htok : ∀ x ∈ tok, x ≠ ' ' ∧ x ≠ NUL) (hne : tok ≠ [])
    (hc : c = ' ' ∨ c = NUL) :
    strtok mem s = (some (pre.length + sp.length), pre ++ (sp ++ (tok ++ NUL :: r)),
      pre.length + sp.length + tok.length + (if c = NUL then 0 else 1)) := by
  subst hmem hs
  obtain ⟨t0, tok1, rfl⟩ := List.exists_cons_of_ne_nil hne
  have ht0 := htok t0 (List.mem_cons_self _ _)
  unfold strtok
  have hb : pre.length + strspn_sp ((pre ++ (sp ++ (t0 :: tok1 ++ c :: r))).drop pre.length)
      = (pre ++ sp).length := by
    rw [List.drop_left, strspn_sp_append sp _ hsp (by simp [ht0.1]), List.length_append]
  simp only [hb]
  have hpk : peek (pre ++ (sp ++ (t0 :: tok1 ++ c :: r))) (pre ++ sp).length = t0 := by
    have := peek_append_cons (pre ++ sp) t0 (tok1 ++ c :: r)
    simpa [List.append_assoc] using this
  rw [hpk, if_neg ht0.2]
  have he : (pre ++ sp).length
      + strcspn_sp ((pre ++ (sp ++ (t0 :: tok1 ++ c :: r))).drop (pre ++ sp).length)
      = (pre ++ (sp ++ (t0 :: tok1))).length := by
    have : pre ++ (sp ++ (t0 :: tok1 ++ c :: r)) = (pre ++ sp) ++ ((t0 :: tok1) ++ c :: r) := by
      simp [List.append_assoc]
    rw [this, List.drop_left, strcspn_sp_append _ c r htok hc]
    simp [List.length_append]; omega
  simp only [he]
  have hmem2 : pre ++ (sp ++ (t0 :: tok1 ++ c :: r)) = (pre ++ (sp ++ (t0 :: tok1))) ++ c :: r := by
    simp [List.append_assoc]
  rw [hmem2, peek_append_cons, set_append_cons]
  have hmem3 : (pre ++ (sp ++ (t0 :: tok1))) ++ NUL :: r = pre ++ (sp ++ (t0 :: tok1 ++ NUL :: r)) := by
    simp [List.append_assoc]
  by_cases hcn : c = NUL
  · subst hcn
    simp [List.length_append]; omega
  · rw [if_neg hcn, if_neg hcn, hmem3]
    simp [List.length_append]; omega

/-- A call of strtok that starts at the terminator finds no token. -/
theorem strtok_at_nul (mem : List Char) (s : Nat) (h : peek mem s = NUL) :
    strtok mem s = (none, mem, s) := by
  unfold strtok
  have : strspn_sp (mem.drop s) = 0 := by
    unfold strspn_sp
    cases hd : mem.drop s with
    | nil => rfl
    | cons x xs =>
      have hx : peek mem s = x := by
        unfold peek
        rw [List.getD_eq_getElem?_getD, ← List.head?_drop, hd]; rfl
      rw [h] at hx
      subst hx
      simp [List.takeWhile_cons, NUL]
  simp [this, h]

/-- A call of strtok leaves the memory before its starting offset as it is. -/
theorem strtok_frame (pre r : List Char) (s : Nat) (h : pre.length ≤ s) :
    ∃ r1, (strtok (pre ++ r) s).2.1 = pre ++ r1 ∧ s ≤ (strtok (pre ++ r) s).2.2 := by
  unfold strtok
  simp only
  split
  · exact ⟨r, rfl, by simp⟩
  · split
    · exact ⟨r, rfl, by simp; omega⟩
    · refine ⟨r.set (s + strspn_sp ((pre ++ r).drop s)
          + strcspn_sp ((pre ++ r).drop (s + strspn_sp ((pre ++ r).drop s))) - pre.length) NUL, ?_, ?_⟩
      · simp only
        rw [List.set_append, if_neg (by omega)]
      · simp only; omega


theorem takeWhile_set_nul (tok : List Char) (r : List Char) (htok : ∀ x ∈ tok, x ≠ NUL) :
    ∀ k, ((tok ++ NUL :: r).set k NUL).takeWhile (fun c => c != NUL) = tok.take k := by
  induction tok with
  | nil =>
    intro k
    cases k <;> simp [List.takeWhile_cons]
  | cons x xs ih =>
    intro k
    have hx : x ≠ NUL := htok x (List.mem_cons_self _ _)
    cases k with
    | zero => simp [List.takeWhile_cons]
    | succ k =>
      simp only [List.cons_append, List.set_cons_succ, List.take_succ_cons]
      rw [List.takeWhile_cons, ih (fun y hy => htok y (List.mem_cons_of_mem _ hy)) k]
      simp [hx]

theorem takeWhile_nul (tok : List Char) (r : List Char) (htok : ∀ x ∈ tok, x ≠ NUL) :
    (tok ++ NUL :: r).takeWhile (fun c => c != NUL) = tok := by
  rw [List.takeWhile_append_of_pos (fun a ha => by simp [htok a ha])]
  simp [List.takeWhile_cons]

/-- Reading a token after the cut at the first carriage return. -/
theorem cstr_cut (mem tok r : List Char) (s e : Nat)
    (hd : mem.drop s = tok ++ NUL :: r) (htok : ∀ x ∈ tok, x ≠ NUL) :
    cstr (mem.set e NUL) s = if s ≤ e then tok.take (e - s) else tok := by
  unfold cstr
  rw [List.drop_set]
  by_cases h : s ≤ e
  · rw [if_neg (by omega), if_pos h, hd, takeWhile_set_nul tok r htok]
  · rw [if_pos (by omega), if_neg h, hd, takeWhile_nul tok r htok]

/-- Reading a token when the header has no carriage return. -/
theorem cstr_whole (mem tok r : List Char) (s : Nat)
    (hd : mem.drop s = tok ++ NUL :: r) (htok : ∀ x ∈ tok, x ≠ NUL) :
    cstr mem s = tok := by
  unfold cstr
  rw [hd, takeWhile_nul tok r htok]

theorem peek_eq_head (mem : List Char) (p : Nat) :
    peek mem p = ((mem.drop p).head?).getD NUL := by
  unfold peek
  rw [List.getD_eq_getElem?_getD, List.head?_drop]

/-- The two tests of `process` on the path are tests on the string it holds. -/
theorem path_tests (mem : List Char) (p : Nat) :
    ((peek mem p = '/' ∧ peek mem (p + 1) = NUL) ↔ cstr mem p = ['/']) ∧
    (peek mem p = '/' ↔ (cstr mem p).head? = some '/') := by
  have h1 := peek_eq_head mem p
  have h2 := peek_eq_head mem (p + 1)
  have hdd : mem.drop (p + 1) = (mem.drop p).drop 1 := by rw [List.drop_drop]
  rw [hdd] at h2
  unfold cstr
  rw [h1, h2]
  cases mem.drop p with
  | nil => simp [NUL]
  | cons x xs =>
    by_cases hx : x = NUL
    · subst hx; simp [List.takeWhile_cons, NUL]
    · cases xs with
      | nil => simp [List.takeWhile_cons, hx]
      | cons y ys =>
        by_cases hy : y = NUL
        · subst hy; simp [List.takeWhile_cons, hx]
        · simp [List.takeWhile_cons, hx, hy]


theorem code_resolve (mem : List Char) (p : Nat) :
    (if peek mem p = '/' ∧ peek mem (p + 1) = NUL then Decision.serve DEFAULT_PATH
      else if peek mem p = '/' then
        Decision.serve (snprintf MAX_REQUEST_SIZE ('.' :: cstr mem p))
      else Decision.serve (cstr mem p)) = Decision.serve (rewrite_path (cstr mem p)) := by
  obtain ⟨h1, h2⟩ := path_tests mem p
  unfold rewrite_path
  by_cases ha : cstr mem p = ['/']
  · rw [if_pos (h1.2 ha), if_pos ha]
  · rw [if_neg (fun h => ha (h1.1 h)), if_neg ha]
    by_cases hb : (cstr mem p).head? = some '/'
    · rw [if_pos (h2.2 hb), if_pos hb]
    · rw [if_neg (fun h => hb (h2.1 h)), if_neg hb]

/-- The code rewrites the path as the specification says as long as the result
fits the local array. -/
theorem rewrite_path_eq_resolve (target : List Char)
    (hlen : target.length < MAX_REQUEST_SIZE - 1) : rewrite_path target = resolve target := by
  unfold rewrite_path resolve snprintf
  rw [List.take_of_length_le (by simp; omega)]

theorem decide_of_strings (mem : List Char) (a b p : Nat) :
    check_request mem (some a) (some p) (some b)
    = if cstr mem a = "GET".toList ∧
          (cstr mem b = "HTTP/1.0".toList ∨ cstr mem b = "HTTP/1.1".toList)
      then Decision.serve (rewrite_path (cstr mem p)) else Decision.bad_request := by
  unfold check_request
  simp only
  rw [code_resolve mem p]
  by_cases h1 : cstr mem a = "GET".toList
  · by_cases h2 : cstr mem b = "HTTP/1.0".toList ∨ cstr mem b = "HTTP/1.1".toList
    · rw [if_neg (by simpa using h1), if_neg (by tauto), if_pos ⟨h1, h2⟩]
    · rw [if_neg (by simpa using h1), if_pos (by tauto), if_neg (by tauto)]
  · rw [if_pos h1, if_neg (by tauto)]

/-- The decision of `process` on a header with three tokens, in terms of the
tokens read after the cut at the first carriage return. -/
theorem process_decision_tokens (sp0 m sp1 t sp2 v : List Char) (c : Char) (r : List Char)
    (hsp0 : is_spaces sp0) (hsp1 : is_spaces sp1) (hsp2 : is_spaces sp2)
    (hm : is_token m) (ht : is_token t) (hv : is_token v) (hc : c = ' ' ∨ c = NUL) :
    process_decision (header_of sp0 m sp1 t sp2 v c r) =
      if cut_at_cr (header_of sp0 m sp1 t sp2 v c r) sp0.length m = "GET".toList ∧
          (cut_at_cr (header_of sp0 m sp1 t sp2 v c r)
              (sp0.length + m.length + 1 + sp1.length + t.length + 1 + sp2.length) v
              = "HTTP/1.0".toList ∨
            cut_at_cr (header_of sp0 m sp1 t sp2 v c r)
              (sp0.length + m.length + 1 + sp1.length + t.length + 1 + sp2.length) v
              = "HTTP/1.1".toList)
      then .serve (rewrite_path (cut_at_cr (header_of sp0 m sp1 t sp2 v c r)
              (sp0.length + m.length + 1 + sp1.length) t))
      else .bad_request := by
  have h1 := strtok_token (header_of sp0 m sp1 t sp2 v c r) [] sp0 m ' '
    (sp1 ++ (t ++ ' ' :: (sp2 ++ (v ++ c :: r)))) 0 rfl rfl hsp0 hm.2 hm.1 (Or.inl rfl)
  have h2 := strtok_token ([] ++ (sp0 ++ (m ++ NUL :: (sp1 ++ (t ++ ' ' :: (sp2 ++ (v ++ c :: r)))))))
    (sp0 ++ (m ++ [NUL])) sp1 t ' ' (sp2 ++ (v ++ c :: r))
    (([] : List Char).length + sp0.length + m.length + (if ' ' = NUL then 0 else 1))
    (by simp) (by simp [NUL]; omega) hsp1 ht.2 ht.1 (Or.inl rfl)
  have h3 := strtok_token ((sp0 ++ (m ++ [NUL])) ++ (sp1 ++ (t ++ NUL :: (sp2 ++ (v ++ c :: r)))))
    (sp0 ++ (m ++ NUL :: (sp1 ++ (t ++ [NUL])))) sp2 v c r
    ((sp0 ++ (m ++ [NUL])).length + sp1.length + t.length + (if ' ' = NUL then 0 else 1))
    (by simp) (by simp [NUL]; omega) hsp2 hv.2 hv.1 hc
  unfold process_decision
  rw [h1]
  simp only
  rw [h2]
  simp only
  rw [h3]
  simp only
  have hM1 : sp0 ++ (m ++ NUL :: (sp1 ++ (t ++ [NUL]))) ++ (sp2 ++ (v ++ NUL :: r))
      = sp0 ++ (m ++ NUL :: (sp1 ++ (t ++ NUL :: (sp2 ++ (v ++ NUL :: r))))) := by simp
  have hM2 : sp0 ++ (m ++ NUL :: (sp1 ++ (t ++ [NUL]))) ++ (sp2 ++ (v ++ NUL :: r))
      = (sp0 ++ (m ++ [NUL])) ++ sp1 ++ (t ++ NUL :: (sp2 ++ (v ++ NUL :: r))) := by simp
  have hM3 : sp0 ++ (m ++ NUL :: (sp1 ++ (t ++ [NUL]))) ++ (sp2 ++ (v ++ NUL :: r))
      = sp0 ++ (m ++ NUL :: (sp1 ++ (t ++ [NUL]))) ++ sp2 ++ (v ++ NUL :: r) := by simp
  generalize sp0 ++ (m ++ NUL :: (sp1 ++ (t ++ [NUL]))) ++ (sp2 ++ (v ++ NUL :: r)) = M at *
  have d1 : M.drop (([] : List Char).length + sp0.length)
      = m ++ NUL :: (sp1 ++ (t ++ NUL :: (sp2 ++ (v ++ NUL :: r)))) := by
    rw [hM1, List.drop_left' (by simp)]
  have d2 : M.drop ((sp0 ++ (m ++ [NUL])).length + sp1.length)
      = t ++ NUL :: (sp2 ++ (v ++ NUL :: r)) := by
    rw [hM2, List.drop_left' (by simp; omega)]
  have d3 : M.drop ((sp0 ++ (m ++ NUL :: (sp1 ++ (t ++ [NUL])))).length + sp2.length)
      = v ++ NUL :: r := by
    rw [hM3, List.drop_left' (by simp; omega)]
  have e1 : ([] : List Char).length + sp0.length = sp0.length := by simp
  have e2 : (sp0 ++ (m ++ [NUL])).length + sp1.length
      = sp0.length + m.length + 1 + sp1.length := by simp; omega
  have e3 : (sp0 ++ (m ++ NUL :: (sp1 ++ (t ++ [NUL])))).length + sp2.length
      = sp0.length + m.length + 1 + sp1.length + t.length + 1 + sp2.length := by
    simp; omega
  unfold cut_at_cr
  cases strchr (header_of sp0 m sp1 t sp2 v c r) 0 '\r' with
  | none =>
    simp only
    have c1 := cstr_whole M m _ _ d1 (fun x hx => (hm.2 x hx).2)
    have c2 := cstr_whole M t _ _ d2 (fun x hx => (ht.2 x hx).2)
    have c3 := cstr_whole M v _ _ d3 (fun x hx => (hv.2 x hx).2)
    rw [decide_of_strings, c1, c2, c3]
  | some e =>
    simp only
    have c1 := cstr_cut M m _ _ e d1 (fun x hx => (hm.2 x hx).2)
    have c2 := cstr_cut M t _ _ e d2 (fun x hx => (ht.2 x hx).2)
    have c3 := cstr_cut M v _ _ e d3 (fun x hx => (hv.2 x hx).2)
    rw [decide_of_strings, c1, c2, c3, e1, e2, e3]


/-- The decision of `process` when the method, read after the cut, is not
`GET`: the error branch, whatever follows the method. -/
theorem process_decision_method (sp0 m : List Char) (c : Char) (r : List Char)
    (hsp0 : is_spaces sp0) (hm : is_token m) (hc : c = ' ' ∨ c = NUL)
    (hbad : cut_at_cr (sp0 ++ (m ++ c :: r)) sp0.length m ≠ "GET".toList) :
    process_decision (sp0 ++ (m ++ c :: r)) = .bad_request := by
  have h1 := strtok_token (sp0 ++ (m ++ c :: r)) [] sp0 m c r 0 rfl rfl hsp0 hm.2 hm.1 hc
  have key : ∃ r3, (strtok (strtok ([] ++ (sp0 ++ (m ++ NUL :: r)))
        (([] : List Char).length + sp0.length + m.length + (if c = NUL then 0 else 1))).2.1
      (strtok ([] ++ (sp0 ++ (m ++ NUL :: r)))
        (([] : List Char).length + sp0.length + m.length + (if c = NUL then 0 else 1))).2.2).2.1
      = sp0 ++ (m ++ NUL :: r3) := by
    by_cases hcn : c = NUL
    · have hp : peek ([] ++ (sp0 ++ (m ++ NUL :: r)))
          (([] : List Char).length + sp0.length + m.length + (if c = NUL then 0 else 1)) = NUL := by
        have := peek_append_cons (sp0 ++ m) NUL r
        rw [if_pos hcn]
        simpa [List.append_assoc] using this
      rw [strtok_at_nul _ _ hp]
      simp only
      rw [strtok_at_nul _ _ hp]
      exact ⟨r, by simp⟩
    · have hs : ([] : List Char).length + sp0.length + m.length + (if c = NUL then 0 else 1)
          = (sp0 ++ (m ++ [NUL])).length := by rw [if_neg hcn]; simp; omega
      have hmem : [] ++ (sp0 ++ (m ++ NUL :: r)) = (sp0 ++ (m ++ [NUL])) ++ r := by simp
      rw [hs, hmem]
      obtain ⟨r1, hr1, hle1⟩ := strtok_frame (sp0 ++ (m ++ [NUL])) r
        (sp0 ++ (m ++ [NUL])).length (le_refl _)
      rw [hr1]
      obtain ⟨r2, hr2, _⟩ := strtok_frame (sp0 ++ (m ++ [NUL])) r1 _ hle1
      rw [hr2]
      exact ⟨r2, by simp⟩
  unfold process_decision
  rw [h1]
  simp only
  rcases hs2 : strtok ([] ++ (sp0 ++ (m ++ NUL :: r)))
    (([] : List Char).length + sp0.length + m.length + (if c = NUL then 0 else 1))
    with ⟨path, mem2, save2⟩
  rw [hs2] at key
  simp only at key ⊢
  rcases hs3 : strtok mem2 save2 with ⟨http, mem3, save3⟩
  rw [hs3] at key
  simp only at key ⊢
  obtain ⟨r3, hr3⟩ := key
  have d1 : mem3.drop (([] : List Char).length + sp0.length) = m ++ NUL :: r3 := by
    rw [hr3, List.drop_left' (by simp)]
  have e1 : ([] : List Char).length + sp0.length = sp0.length := by simp
  unfold cut_at_cr at hbad
  cases hch : strchr (sp0 ++ (m ++ c :: r)) 0 '\r' with
  | none =>
    rw [hch] at hbad
    unfold check_request
    simp only at hbad ⊢
    rw [cstr_whole mem3 m _ _ d1 (fun x hx => (hm.2 x hx).2), if_pos hbad]
  | some e =>
    rw [hch] at hbad
    unfold check_request
    simp only at hbad ⊢
    rw [cstr_cut mem3 m _ _ e d1 (fun x hx => (hm.2 x hx).2), e1, if_pos hbad]


/-! ## The request parser: nothing past the terminator is read -/

theorem peek_append_nul (a t : List Char) (i : Nat) (h : i ≤ a.length) :
    peek (a ++ NUL :: t) i = peek a i := by
  unfold peek
  rcases Nat.lt_or_ge i a.length with h1 | h1
  · exact List.getD_append _ _ _ _ h1
  · have : i = a.length := by omega
    subst this
    have := peek_append_cons a NUL t
    unfold peek at this
    rw [this, List.getD_eq_getElem?_getD, List.getElem?_eq_none (le_refl _)]; rfl

theorem peek_ne_nul_lt (a : List Char) (i : Nat) (h : peek a i ≠ NUL) : i < a.length := by
  by_contra hc
  apply h
  unfold peek
  rw [List.getD_eq_getElem?_getD, List.getElem?_eq_none (by omega)]; rfl

theorem takeWhile_append_nul (p : Char → Bool) (hp : p NUL = false) (x t : List Char) :
    (x ++ NUL :: t).takeWhile p = x.takeWhile p := by
  induction x with
  | nil => simp [List.takeWhile_cons, hp]
  | cons y ys ih =>
    simp only [List.cons_append, List.takeWhile_cons]
    split
    · rw [ih]
    · rfl

theorem drop_append_nul (a t : List Char) (s : Nat) (h : s ≤ a.length) :
    (a ++ NUL :: t).drop s = a.drop s ++ NUL :: t :=
  List.drop_append_of_le_length h

theorem cstr_append_nul (a t : List Char) (s : Nat) (h : s ≤ a.length) :
    cstr (a ++ NUL :: t) s = cstr a s := by
  unfold cstr
  rw [drop_append_nul a t s h, takeWhile_append_nul _ (by simp)]

theorem strchr_from_append_nul (c : Char) (hc : c ≠ NUL) (x t : List Char) :
    ∀ i, strchr_from c (x ++ NUL :: t) i = strchr_from c x i := by
  induction x with
  | nil =>
    intro i
    simp [strchr_from, Ne.symm hc]
  | cons y ys ih =>
    intro i
    rw [List.cons_append]
    unfold strchr_from
    rw [ih]

theorem strchr_from_lt (c : Char) (x : List Char) :
    ∀ i e, strchr_from c x i = some e → e < i + x.length := by
  induction x with
  | nil => intro i e h; simp [strchr_from] at h
  | cons y ys ih =>
    intro i e h
    simp only [strchr_from] at h
    split at h
    · simp at h; subst h; simp
    · split at h
      · simp at h
      · have := ih _ _ h
        simp only [List.length_cons]; omega

theorem strchr_lt (a : List Char) (c : Char) (e : Nat) (h : strchr a 0 c = some e) :
    e < a.length := by
  unfold strchr at h
  have := strchr_from_lt c _ _ _ h
  simpa using this

theorem strspn_sp_le (l : List Char) : strspn_sp l ≤ l.length := by
  unfold strspn_sp
  exact (List.takeWhile_sublist _).length_le

theorem strcspn_sp_le (l : List Char) : strcspn_sp l ≤ l.length := by
  unfold strcspn_sp
  exact (List.takeWhile_sublist _).length_le

/-- A call of strtok does not look past the terminator that ends the block. -/
theorem strtok_append_nul (a t : List Char) (s : Nat) (h : s ≤ a.length) :
    strtok (a ++ NUL :: t) s
        = ((strtok a s).1, (strtok a s).2.1 ++ NUL :: t, (strtok a s).2.2) ∧
      (strtok a s).2.1.length = a.length ∧ (strtok a s).2.2 ≤ a.length ∧
      ∀ b, (strtok a s).1 = some b → b < a.length := by
  unfold strtok
  simp only
  have hb1 : strspn_sp ((a ++ NUL :: t).drop s) = strspn_sp (a.drop s) := by
    unfold strspn_sp
    rw [drop_append_nul a t s h, takeWhile_append_nul _ (by simp [NUL])]
  have hb2 : s + strspn_sp (a.drop s) ≤ a.length := by
    have := strspn_sp_le (a.drop s)
    rw [List.length_drop] at this; omega
  rw [hb1, peek_append_nul a t _ hb2]
  generalize s + strspn_sp (a.drop s) = b at *
  by_cases hpb : peek a b = NUL
  · rw [if_pos hpb, if_pos hpb]
    exact ⟨rfl, rfl, hb2, fun _ hx => by simp at hx⟩
  · rw [if_neg hpb, if_neg hpb]
    have hblt := peek_ne_nul_lt a b hpb
    have he1 : strcspn_sp ((a ++ NUL :: t).drop b) = strcspn_sp (a.drop b) := by
      unfold strcspn_sp
      rw [drop_append_nul a t b hb2, takeWhile_append_nul _ (by simp)]
    have he2 : b + strcspn_sp (a.drop b) ≤ a.length := by
      have := strcspn_sp_le (a.drop b)
      rw [List.length_drop] at this; omega
    rw [he1, peek_append_nul a t _ he2]
    generalize b + strcspn_sp (a.drop b) = e at *
    by_cases hpe : peek a e = NUL
    · rw [if_pos hpe, if_pos hpe]
      exact ⟨rfl, rfl, he2, fun x hx => by simp at hx; omega⟩
    · rw [if_neg hpe, if_neg hpe]
      have helt := peek_ne_nul_lt a e hpe
      refine ⟨?_, by simp, by simp; omega, fun x hx => by simp at hx; omega⟩
      rw [List.set_append, if_pos helt]

theorem strchr_append_nul (a t : List Char) (c : Char) (hc : c ≠ NUL) :
    strchr (a ++ NUL :: t) 0 c = strchr a 0 c := by
  unfold strchr
  exact strchr_from_append_nul c hc a t 0

theorem check_request_append_nul (X t : List Char) (method path http : Option Nat)
    (hm : ∀ b, method = some b → b < X.length) (hp : ∀ b, path = some b → b < X.length)
    (hh : ∀ b, http = some b → b < X.length) :
    check_request (X ++ NUL :: t) method path http = check_request X method path http := by
  unfold check_request
  cases method with
  | none => rfl
  | some m =>
    have := hm m rfl
    simp only
    rw [cstr_append_nul X t m (by omega)]
    cases http with
    | none => rfl
    | some v =>
      have := hh v rfl
      simp only
      rw [cstr_append_nul X t v (by omega)]
      cases path with
      | none => rfl
      | some p =>
        have := hp p rfl
        simp only
        rw [cstr_append_nul X t p (by omega), peek_append_nul X t p (by omega),
          peek_append_nul X t (p + 1) (by omega)]

/-- The decision of `process` depends on the header only up to its terminator. -/
theorem process_decision_append_nul (a t : List Char) :
    process_decision (a ++ NUL :: t) = process_decision a := by
  obtain ⟨g1, l1, v1, b1⟩ := strtok_append_nul a t 0 (Nat.zero_le _)
  rcases h1 : strtok a 0 with ⟨method, m1, s1⟩
  rw [h1] at g1 l1 v1 b1
  simp only at g1 l1 v1 b1
  obtain ⟨g2, l2, v2, b2⟩ := strtok_append_nul m1 t s1 (by omega)
  rcases h2 : strtok m1 s1 with ⟨path, m2, s2⟩
  rw [h2] at g2 l2 v2 b2
  simp only at g2 l2 v2 b2
  obtain ⟨g3, l3, v3, b3⟩ := strtok_append_nul m2 t s2 (by omega)
  rcases h3 : strtok m2 s2 with ⟨http, m3, s3⟩
  rw [h3] at g3 l3 v3 b3
  simp only at g3 l3 v3 b3
  unfold process_decision
  rw [g1, h1]
  simp only
  rw [g2, h2]
  simp only
  rw [g3, h3]
  simp only
  rw [strchr_append_nul a t '\r' (by simp [NUL])]
  cases he : strchr a 0 '\r' with
  | none =>
    simp only
    exact check_request_append_nul m3 t method path http (fun b hb => by have := b1 b hb; omega)
      (fun b hb => by have := b2 b hb; omega) (fun b hb => by have := b3 b hb; omega)
  | some e =>
    simp only
    have hlt := strchr_lt a '\r' e he
    rw [List.set_append, if_pos (by omega)]
    exact check_request_append_nul (m3.set e NUL) t method path http
      (fun b hb => by have := b1 b hb; simp; omega)
      (fun b hb => by have := b2 b hb; simp; omega) (fun b hb => by have := b3 b hb; simp; omega)

/-! ## The request reader: the hand-over -/

theorem take_eq_of_peek (A B : List Char) (p : Nat) (hA : p ≤ A.length) (hB : p ≤ B.length)
    (h : ∀ i, i < p → peek A i = peek B i) : A.take p = B.take p := by
  apply List.ext_getElem
  · simp [List.length_take, hA, hB]
  · intro i h1 h2
    rw [List.length_take] at h1 h2
    have hi : i < p := by omega
    have := h i hi
    unfold peek at this
    rw [List.getD_eq_getElem _ _ (by omega), List.getD_eq_getElem _ _ (by omega)] at this
    simpa using this

theorem split_at_nul (buf : List Char) (p : Nat) (hp : p < buf.length)
    (h : peek buf p = NUL) : buf = buf.take p ++ NUL :: buf.drop (p + 1) := by
  unfold peek at h
  rw [List.getD_eq_getElem _ _ hp] at h
  rw [← h, ← List.drop_eq_getElem_cons hp, List.take_append_drop]

theorem is_term_no_cr (S : List Char) (h : '\r' ∉ S) (q : Nat) : is_term S q = false := by
  have : peek S q ≠ '\r' := by
    unfold peek
    intro hc
    by_cases hq : q < S.length
    · rw [List.getD_eq_getElem _ _ hq] at hc
      exact h (hc ▸ List.getElem_mem _)
    · rw [List.getD_eq_getElem?_getD, List.getElem?_eq_none (by omega)] at hc
      simp [NUL] at hc
  unfold is_term
  simp [this]

/-- When the first `\r\n\r\n` of the client stream starts at offset `p` and
the stream is delivered as reads of at least one byte each that bring fewer
than 4095 bytes in all, the read loop ends by handing the buffer to `process`;
the buffer holds the first `p` bytes of the stream followed by the terminator
at index `p`, and the result of `service` is the result of `process` on those
`p` bytes, whatever the split into reads. -/
theorem service_hands_over (S buffer0 : List Char) (p : Nat) (sizes : List Nat)
    (hterm : is_term S p = true)
    (hfirst : ∀ q, q < p → is_term S q = false)
    (hsizes : ∀ k ∈ sizes, 1 ≤ k) (hsum : p + 4 ≤ sizes.sum) (hbound : sizes.sum < 4095)
    (hbuf : buffer0.length = MAX_REQUEST_SIZE) :
    ∃ buf stores,
      service_read buffer0 ⟨S, sizes.map some⟩ = some ⟨.handed buf, stores⟩ ∧
      buf.take (p + 1) = S.take p ++ [NUL] ∧
      ∀ env fd, service env fd buffer0 ⟨S, sizes.map some⟩
        = some (process env fd (S.take p)) := by
  have hS := is_term_length S p hterm
  obtain ⟨buf, stores, hrun, hlen, hpre, hnul⟩ :=
    loop_hands_over S p (by simp only [MAX_REQUEST_SIZE]; omega) hterm hfirst sizes hsizes
      buffer0 0 [] hbuf (by omega) (fun i hi => by omega) (by omega)
      (by simp only [MAX_REQUEST_SIZE]; omega)
  have hpl : p < buf.length := by rw [hlen]; simp only [MAX_REQUEST_SIZE]; omega
  have htake : buf.take p = S.take p :=
    take_eq_of_peek buf S p (by omega) (by omega) hpre
  have hsplit := split_at_nul buf p hpl hnul
  refine ⟨buf, stores, hrun, ?_, ?_⟩
  · rw [List.take_succ, htake, List.getElem?_eq_getElem hpl]
    unfold peek at hnul
    rw [List.getD_eq_getElem _ _ hpl] at hnul
    rw [hnul]; rfl
  · intro env fd
    have hrun1 : service_read buffer0 ⟨S, sizes.map some⟩
        = some ⟨.handed buf, stores⟩ := hrun
    have hpd : process_decision buf = process_decision (S.take p) := by
      rw [hsplit, process_decision_append_nul, htake]
    unfold service
    rw [hrun1]
    unfold process
    simp only [hpd]

/-- A run of the read loop that stores past the array leaves `service` with
undefined behaviour. -/
theorem service_undefined (env : Env) (fd : Int) (buffer0 : List Char) (conn : Conn)
    (stores : List Nat) (h : service_read buffer0 conn = some ⟨.undefined, stores⟩) :
    service env fd buffer0 conn = some .crash := by
  unfold service
  rw [h]

/-- C5 (defect in the code): the stream `stream_padded` has its first
`\r\n\r\n` at offset 14, and 14 + 4 is below 4095; delivered as one read of
4095 bytes, the read loop does not reach the scan that would hand the buffer
over: after the read it stores the terminator at index 0 + 4095 + 1 = 4096,
past the end of the array, which is undefined behaviour. -/
theorem C5_full_read_overruns :
    is_term stream_padded 14 = true ∧
    (List.range 14).all (fun q => !is_term stream_padded q) = true ∧
    (∃ stores, service_read buffer_zero ⟨stream_padded, [some 4095]⟩
        = some ⟨.undefined, stores⟩ ∧ 4096 ∈ stores) ∧
    service env_ok 4 buffer_zero ⟨stream_padded, [some 4095]⟩ = some .crash := by
  obtain ⟨stores1, h1, h2⟩ := service_loop_fill 4095 [] stream_padded buffer_zero 0 0 []
    (by decide)
    (by
      have hl : stream_padded.length = 18 + 5000 := by
        unfold stream_padded
        rw [List.length_append, List.length_replicate]
        rfl
      rw [List.length_take, hl]
      decide)
  have h3 : service_read buffer_zero ⟨stream_padded, [some 4095]⟩
      = some ⟨.undefined, stores1⟩ := h1
  exact ⟨by decide, by decide, ⟨stores1, h3, h2⟩, service_undefined _ _ _ _ _ h3⟩

/-- C6 (defect in the code): 4095 bytes `A`, with no `\r\n\r\n`, delivered
as five reads.  The read that brings the count to 4095 stores the terminator
at index 4096, past the end of the array, before the loop can leave through
its header-too-long exit; `service` does not return -1 by a defined path. -/
theorem C6_overrun_before_return :
    (∃ stores, service_read buffer_zero
        ⟨stream_full, [1000, 1000, 1000, 1000, 95].map some⟩
        = some ⟨.undefined, stores⟩ ∧ 4096 ∈ stores) ∧
    service env_ok 4 buffer_zero ⟨stream_full, [1000, 1000, 1000, 1000, 95].map some⟩
      = some .crash ∧
    service env_ok 4 buffer_zero ⟨stream_full, [1000, 1000, 1000, 1000, 95].map some⟩
      ≠ some (.ret (-1) []) := by
  obtain ⟨stores1, h1, h2⟩ :=
    loop_overruns stream_full (le_of_eq (List.length_replicate _ _).symm)
      (fun q _ => is_term_no_cr stream_full
        (fun h => absurd (List.eq_of_mem_replicate h) (by decide)) q)
      [1000, 1000, 1000, 1000, 95] (by decide) buffer_zero 0 []
      (List.length_replicate _ _) (by decide) (fun i hi => by omega) (by decide)
  have h3 : service_read buffer_zero ⟨stream_full, [1000, 1000, 1000, 1000, 95].map some⟩
      = some ⟨.undefined, stores1⟩ := h1
  have h4 : service env_ok 4 buffer_zero ⟨stream_full, [1000, 1000, 1000, 1000, 95].map some⟩
      = some .crash := service_undefined _ _ _ _ _ h3
  refine ⟨⟨stores1, h3, h2⟩, h4, ?_⟩
  rw [h4]
  decide

/-! ## The request parser: tokens that hold the first carriage return -/

/-- C7 (defect in the code): in the header `GET\rX / HTTP/1.0` the method token
is `GET\rX`, which is not `GET`, and the version token is `HTTP/1.0`; the claim
says the request gets the error response.  The three tokens are taken from
the whole header before line 93 cuts it at its first carriage return; the cut
then leaves `GET` in the method, the target and version found past the
carriage return are used, and `process` goes on to look up `index.html`. -/
theorem C7_cut_method_served :
    is_token "GET\rX".toList ∧ is_token "/".toList ∧ is_token "HTTP/1.0".toList ∧
    process_decision (header_of [] "GET\rX".toList [] "/".toList [] "HTTP/1.0".toList NUL [])
      = .serve DEFAULT_PATH ∧
    ¬ ((∃ path, process_decision
          (header_of [] "GET\rX".toList [] "/".toList [] "HTTP/1.0".toList NUL [])
            = .serve path) ↔
        ("GET\rX".toList = "GET".toList ∧
          (cut_at_cr (header_of [] "GET\rX".toList [] "/".toList [] "HTTP/1.0".toList NUL [])
              8 "HTTP/1.0".toList = "HTTP/1.0".toList ∨
            cut_at_cr (header_of [] "GET\rX".toList [] "/".toList [] "HTTP/1.0".toList NUL [])
              8 "HTTP/1.0".toList = "HTTP/1.1".toList))) := by
  refine ⟨by decide, by decide, by decide, by decide, ?_⟩
  intro h
  exact absurd (h.1 ⟨DEFAULT_PATH, by decide⟩).1 (by decide)

/-- C8 (defect in the code): in the header `GET\r / HTTP/1.1` the method token
is `GET\r`, present and not exactly `GET`; the claim says `process` writes the
error response and opens no file.  The cut at the first carriage return,
applied after the tokens were taken from the whole header, leaves `GET` in the
method, and `process` opens `index.html` and serves it. -/
theorem C8_cut_method_opens_file :
    is_token "GET\r".toList ∧ "GET\r".toList ≠ "GET".toList ∧
    process env_ok 4 ("GET\r / HTTP/1.1".toList ++ [NUL]) ≠ send_error 4 ∧
    process env_ok 4 ("GET\r / HTTP/1.1".toList ++ [NUL])
      = .ret 0 [.sys_open DEFAULT_PATH, .fstat 3,
                .write 4 HTTP_GOOD_REQUEST 24,
                .write 4 HTTP_CONTENT_TYPE 25,
                .write 4 "Content-Length: 12\r\n\r\n".toList 22,
                .sendfile 4 3 12, .close 3] := by
  decide

/-- C9 (defect in the code): in the header `GET /a\rb HTTP/1.0` the method is
`GET`, the version is `HTTP/1.0` and the target is `/a\rb`; the claim says the
path handed to `send_file` is the complete target with a `.` prepended.  The
request line ends at the carriage return inside the target, yet the version
found past it is accepted, and the cut leaves `/a`: the path is `./a`. -/
theorem C9_cut_target_truncated :
    is_token "/a\rb".toList ∧
    process_decision (header_of [] "GET".toList [] "/a\rb".toList [] "HTTP/1.0".toList NUL [])
      = .serve "./a".toList ∧
    process_decision (header_of [] "GET".toList [] "/a\rb".toList [] "HTTP/1.0".toList NUL [])
      ≠ .serve (resolve "/a\rb".toList) := by
  decide

/-! ## The responder: content length and transfer -/

theorem digitChar_props (d : Nat) (h : d < 10) :
    Nat.digitChar d ≠ NUL ∧ (Nat.digitChar d).toNat - 48 = d := by
  interval_cases d <;> decide

theorem ld_digits_length : ∀ (fuel n k : Nat), 0 < k → n < 10 ^ k →
    (ld_digits fuel n).length ≤ k := by
  intro fuel
  induction fuel with
  | zero => intro n k _ _; simp [ld_digits]
  | succ f ih =>
    intro n k hk hn
    unfold ld_digits
    split
    · simpa using hk
    · rename_i h10
      obtain ⟨j, rfl⟩ : ∃ j, k = j + 1 := ⟨k - 1, by omega⟩
      have hj : 0 < j := by
        rcases Nat.eq_zero_or_pos j with h0 | h0
        · subst h0; simp at hn; omega
        · exact h0
      have hdiv : n / 10 < 10 ^ j := by
        rw [Nat.div_lt_iff_lt_mul (by decide)]
        rw [pow_succ] at hn; exact hn
      have := ih (n / 10) j hj hdiv
      simp only [List.length_append, List.length_singleton]
      omega

theorem ld_digits_ne_nul : ∀ (fuel n : Nat), ∀ x ∈ ld_digits fuel n, x ≠ NUL := by
  intro fuel
  induction fuel with
  | zero => intro n x hx; simp [ld_digits] at hx
  | succ f ih =>
    intro n x hx
    unfold ld_digits at hx
    split at hx
    · rename_i h
      simp only [List.mem_singleton] at hx
      subst hx
      exact (digitChar_props n h).1
    · simp only [List.mem_append, List.mem_singleton] at hx
      rcases hx with hx | hx
      · exact ih _ x hx
      · subst hx
        exact (digitChar_props (n % 10) (Nat.mod_lt _ (by decide))).1

theorem ld_value_append (xs : List Char) (d : Char) :
    ld_value (xs ++ [d]) = 10 * ld_value xs + (d.toNat - 48) := by
  unfold ld_value
  rw [List.foldl_append]
  rfl

theorem ld_value_digits : ∀ (fuel n : Nat), n < 10 ^ fuel → ld_value (ld_digits fuel n) = n := by
  intro fuel
  induction fuel with
  | zero => intro n hn; simp at hn; subst hn; rfl
  | succ f ih =>
    intro n hn
    unfold ld_digits
    split
    · rename_i h
      have := (digitChar_props n h).2
      simp only [ld_value, List.foldl_cons, List.foldl_nil]
      omega
    · have hdiv : n / 10 < 10 ^ f := by
        rw [Nat.div_lt_iff_lt_mul (by decide)]
        rw [pow_succ] at hn; exact hn
      rw [ld_value_append, ih _ hdiv, (digitChar_props (n % 10) (Nat.mod_lt _ (by decide))).2]
      omega

theorem ld_value_fmt_ld (n : Nat) : ld_value (fmt_ld n) = n := by
  unfold fmt_ld
  apply ld_value_digits
  calc n < 2 ^ n := Nat.lt_two_pow n
    _ ≤ 10 ^ n := Nat.pow_le_pow_left (by decide) n
    _ ≤ 10 ^ (n + 1) := Nat.pow_le_pow_right (by decide) (Nat.le_succ n)

theorem cstr_of_no_nul (l : List Char) (h : ∀ x ∈ l, x ≠ NUL) : cstr l 0 = l := by
  unfold cstr
  rw [List.drop_zero, List.takeWhile_eq_self_iff]
  intro x hx
  simp [h x hx]

/-- The content-length line fits the local array and holds no terminator, so
the string left by `snprintf` is the whole line and `strlen` is its length. -/
theorem content_length_line (n : Nat) (hn : n < 2 ^ 63) :
    snprintf MAX_REQUEST_SIZE (HTTP_CONTENT_LENGTH n) = HTTP_CONTENT_LENGTH n ∧
    strlen (HTTP_CONTENT_LENGTH n) = (HTTP_CONTENT_LENGTH n).length := by
  have hlen : (fmt_ld n).length ≤ 19 :=
    ld_digits_length (n + 1) n 19 (by decide) (lt_trans hn (by norm_num))
  constructor
  · unfold snprintf
    apply List.take_of_length_le
    simp only [HTTP_CONTENT_LENGTH, List.length_append, MAX_REQUEST_SIZE]
    have h1 : "Content-Length: ".toList.length = 16 := by decide
    have h2 : "\r\n\r\n".toList.length = 4 := by decide
    omega
  · unfold strlen
    rw [cstr_of_no_nul]
    intro x hx
    simp only [HTTP_CONTENT_LENGTH, List.mem_append] at hx
    rcases hx with (hx | hx) | hx
    · revert x; decide
    · exact ld_digits_ne_nul _ _ x hx
    · revert x; decide

theorem wire_bytes_exact (beyond buf : List Char) :
    wire_bytes beyond buf buf.length = buf := by
  unfold wire_bytes
  exact List.take_left' rfl

/-- C10 as stated fails: when the write of the content-length line fails, the
`||` of line 69 skips the bulk transfer; the file was opened and its size
queried, yet no transfer is requested at all. -/
theorem C10_no_transfer_after_failed_write :
    env_write_fails.open_result DEFAULT_PATH = 3 ∧
    env_write_fails.fstat_result 3 = some 12 ∧
    send_file env_write_fails 4 DEFAULT_PATH
      = .ret 0 [.sys_open DEFAULT_PATH, .fstat 3,
                .write 4 HTTP_GOOD_REQUEST 24,
                .write 4 HTTP_CONTENT_TYPE 25,
                .write 4 "Content-Length: 12\r\n\r\n".toList 22,
                .perror, .close 3] ∧
    (trace_of (send_file env_write_fails 4 DEFAULT_PATH)).all
      (fun c => !(c matches .sendfile _ _ _)) = true := by
  decide

/-- C10, amended: when the open succeeds and the size query reports `n` bytes
(a value of the 64-bit signed `st_size`), the calls of `send_file` are, in this
order and with nothing else: the open, the size query, the two fixed header
writes, the write of `Content-Length: <n>` and an empty line, whose digits read
back as `n`; then, unless that write failed, one bulk transfer of exactly `n`
bytes from the opened descriptor to the connection; a diagnostic if the write
or the transfer failed; and the close.  When neither the write nor the
transfer failed and the calls complete, what the connection receives after the
bytes of the two fixed header writes is that line followed by the whole
content of the file, provided the file holds the `n` bytes the size query
reported. -/
theorem C10_length_and_transfer (env : Env) (fd : Int) (path : List Char) (n : Nat)
    (content : Int → List Char) (beyond : List Char)
    (hopen : 0 ≤ env.open_result path)
    (hstat : env.fstat_result (env.open_result path) = some n) (hn : n < 2 ^ 63)
    (hsize : (content (env.open_result path)).length = n) :
    send_file env fd path
      = .ret 0 ([.sys_open path, .fstat (env.open_result path),
                 .write fd HTTP_GOOD_REQUEST (strlen HTTP_BAD_REQUEST),
                 .write fd HTTP_CONTENT_TYPE (strlen HTTP_CONTENT_TYPE),
                 .write fd ("Content-Length: ".toList ++ fmt_ld n ++ "\r\n\r\n".toList)
                   ("Content-Length: ".toList ++ fmt_ld n ++ "\r\n\r\n".toList).length] ++
                (if env.write_result fd
                      ("Content-Length: ".toList ++ fmt_ld n ++ "\r\n\r\n".toList)
                      ("Content-Length: ".toList ++ fmt_ld n ++ "\r\n\r\n".toList).length < 0
                  then [.perror]
                  else .sendfile fd (env.open_result path) n ::
                    (if env.sendfile_result fd (env.open_result path) n < 0
                      then [.perror] else [])) ++
                [.close (env.open_result path)]) ∧
    ld_value (fmt_ld n) = n ∧
    (0 ≤ env.write_result fd
          ("Content-Length: ".toList ++ fmt_ld n ++ "\r\n\r\n".toList)
          ("Content-Length: ".toList ++ fmt_ld n ++ "\r\n\r\n".toList).length →
      0 ≤ env.sendfile_result fd (env.open_result path) n →
      response beyond content fd 0 (trace_of (send_file env fd path))
        = response beyond content fd 0 ((trace_of (send_file env fd path)).take 4) ++
          ("Content-Length: ".toList ++ fmt_ld n ++ "\r\n\r\n".toList) ++
          content (env.open_result path)) := by
  obtain ⟨h1, h2⟩ := content_length_line n hn
  have hdef : HTTP_CONTENT_LENGTH n
      = "Content-Length: ".toList ++ fmt_ld n ++ "\r\n\r\n".toList := rfl
  rw [hdef] at h1 h2
  have hbytes : sendfile_bytes (content (env.open_result path)) 0 n
      = content (env.open_result path) := by
    unfold sendfile_bytes
    rw [List.drop_zero, List.take_of_length_le (by omega)]
  generalize hline : "Content-Length: ".toList ++ fmt_ld n ++ "\r\n\r\n".toList = line at *
  have htrace : send_file env fd path
      = .ret 0 ([.sys_open path, .fstat (env.open_result path),
                 .write fd HTTP_GOOD_REQUEST (strlen HTTP_BAD_REQUEST),
                 .write fd HTTP_CONTENT_TYPE (strlen HTTP_CONTENT_TYPE),
                 .write fd line line.length] ++
                (if env.write_result fd line line.length < 0 then [.perror]
                  else .sendfile fd (env.open_result path) n ::
                    (if env.sendfile_result fd (env.open_result path) n < 0
                      then [.perror] else [])) ++
                [.close (env.open_result path)]) := by
    unfold send_file
    simp only
    rw [if_neg (by omega), hstat]
    simp only
    rw [hdef, h1, h2]
    by_cases hw : env.write_result fd line line.length < 0
    · rw [if_pos hw, if_pos hw]; rfl
    · rw [if_neg hw, if_neg hw]
      by_cases hs : env.sendfile_result fd (env.open_result path) n < 0
      · rw [if_pos hs, if_pos hs]; rfl
      · rw [if_neg hs, if_neg hs]; rfl
  refine ⟨htrace, ld_value_fmt_ld n, fun hw hs => ?_⟩
  have hw1 : ¬ env.write_result fd line line.length < 0 := by omega
  have hs1 : ¬ env.sendfile_result fd (env.open_result path) n < 0 := by omega
  rw [htrace, if_neg hw1, if_neg hs1]
  simp only [trace_of, List.cons_append, List.nil_append, List.take_succ_cons, List.take_zero,
    response, if_true, wire_bytes_exact, hbytes, List.append_nil, List.append_assoc]

/-- C10, amended, at a concrete input: a file of 12 bytes opened as
descriptor 3, every call completing. -/
theorem C10_length_and_transfer_witness :
    send_file env_ok 4 DEFAULT_PATH
      = .ret 0 [.sys_open DEFAULT_PATH, .fstat 3,
                .write 4 HTTP_GOOD_REQUEST 24,
                .write 4 HTTP_CONTENT_TYPE 25,
                .write 4 "Content-Length: 12\r\n\r\n".toList 22,
                .sendfile 4 3 12, .close 3] ∧
    ld_value (fmt_ld 12) = 12 ∧
    (0 ≤ env_ok.write_result 4
          ("Content-Length: ".toList ++ fmt_ld 12 ++ "\r\n\r\n".toList)
          ("Content-Length: ".toList ++ fmt_ld 12 ++ "\r\n\r\n".toList).length →
      0 ≤ env_ok.sendfile_result 4 (env_ok.open_result DEFAULT_PATH) 12 →
      response [] (fun _ => "<h1>hi</h1>\n".toList) 4 0
          (trace_of (send_file env_ok 4 DEFAULT_PATH))
        = response [] (fun _ => "<h1>hi</h1>\n".toList) 4 0
            ((trace_of (send_file env_ok 4 DEFAULT_PATH)).take 4) ++
          ("Content-Length: ".toList ++ fmt_ld 12 ++ "\r\n\r\n".toList) ++
          "<h1>hi</h1>\n".toList) :=
  C10_length_and_transfer env_ok 4 DEFAULT_PATH 12 (fun _ => "<h1>hi</h1>\n".toList) []
    (by decide) rfl (by decide) (by decide)

/-! ## The responder: error responses and descriptors -/

/-- C11: when the open fails or the size query fails, the bytes `send_file`
writes to the connection are exactly `HTTP/1.0 404 Not Found\r\n` followed by
`Content-Type: text/html\r\n` and nothing after them (no blank line, no
content length, no body, no bulk transfer), whatever memory holds after the
written literals; `send_error` writes the same bytes, through the same two
write calls. -/
theorem C11_error_response (env : Env) (fd : Int) (path beyond : List Char)
    (hfail : env.open_result path < 0 ∨ env.fstat_result (env.open_result path) = none) :
    written beyond fd (trace_of (send_file env fd path))
      = "HTTP/1.0 404 Not Found\r\nContent-Type: text/html\r\n".toList ∧
    written beyond fd (trace_of (send_error fd))
      = "HTTP/1.0 404 Not Found\r\nContent-Type: text/html\r\n".toList ∧
    (trace_of (send_file env fd path)).filter (fun c => c matches .write _ _ _)
      = trace_of (send_error fd) ∧
    ∀ out_fd in_fd count,
      Syscall.sendfile out_fd in_fd count ∉ trace_of (send_file env fd path) := by
  have herr : written beyond fd (trace_of (send_error fd))
      = "HTTP/1.0 404 Not Found\r\nContent-Type: text/html\r\n".toList := by
    simp only [send_error, trace_of, written, if_true]
    rfl
  unfold send_file
  simp only
  by_cases hopen : env.open_result path < 0
  · rw [if_pos hopen]
    refine ⟨?_, herr, ?_, ?_⟩
    · simp only [trace_of, written, if_true]
      rfl
    · rfl
    · intro o i c hmem
      simp [trace_of] at hmem
  · have hstat : env.fstat_result (env.open_result path) = none := by
      rcases hfail with h | h
      · exact absurd h hopen
      · exact h
    rw [if_neg hopen, hstat]
    refine ⟨?_, herr, ?_, ?_⟩
    · simp only [trace_of, written, if_true]
      rfl
    · rfl
    · intro o i c hmem
      simp [trace_of] at hmem

/-- C11 at a concrete input: a path that cannot be opened. -/
theorem C11_error_response_witness :
    written [] 4 (trace_of (send_file env_missing 4 "missing.html".toList))
      = "HTTP/1.0 404 Not Found\r\nContent-Type: text/html\r\n".toList ∧
    written [] 4 (trace_of (send_error 4))
      = "HTTP/1.0 404 Not Found\r\nContent-Type: text/html\r\n".toList ∧
    (trace_of (send_file env_missing 4 "missing.html".toList)).filter
        (fun c => c matches .write _ _ _)
      = trace_of (send_error 4) ∧
    ∀ out_fd in_fd count,
      Syscall.sendfile out_fd in_fd count
        ∉ trace_of (send_file env_missing 4 "missing.html".toList) :=
  C11_error_response env_missing 4 "missing.html".toList [] (Or.inl (by decide))

/-- C13: on every path through `send_file` the descriptors it closes are: none
when the open failed, and the opened descriptor, once, when the open
succeeded, whether the size query, the header write or the bulk transfer then
fails or all succeed; in that case the close is the last call issued.  The
connection descriptor is therefore closed by `send_file` only if the open
returned that same descriptor. -/
theorem C13_descriptor_closed_once (env : Env) (fd : Int) (path : List Char) :
    closes (trace_of (send_file env fd path))
      = (if env.open_result path < 0 then [] else [env.open_result path]) ∧
    (trace_of (send_file env fd path)).getLast?
      = (if env.open_result path < 0
          then some (.write fd HTTP_CONTENT_TYPE (strlen HTTP_CONTENT_TYPE))
          else some (.close (env.open_result path))) ∧
    (fd ∈ closes (trace_of (send_file env fd path)) ↔
      (0 ≤ env.open_result path ∧ env.open_result path = fd)) := by
  have key : closes (trace_of (send_file env fd path))
      = (if env.open_result path < 0 then [] else [env.open_result path]) ∧
    (trace_of (send_file env fd path)).getLast?
      = (if env.open_result path < 0
          then some (.write fd HTTP_CONTENT_TYPE (strlen HTTP_CONTENT_TYPE))
          else some (.close (env.open_result path))) := by
    unfold send_file
    simp only
    by_cases hopen : env.open_result path < 0
    · rw [if_pos hopen, if_pos hopen, if_pos hopen]
      exact ⟨rfl, rfl⟩
    · rw [if_neg hopen, if_neg hopen, if_neg hopen]
      cases env.fstat_result (env.open_result path) with
      | none => exact ⟨rfl, rfl⟩
      | some n =>
        simp only
        split
        · exact ⟨rfl, rfl⟩
        · split
          · exact ⟨rfl, rfl⟩
          · exact ⟨rfl, rfl⟩
  refine ⟨key.1, key.2, ?_⟩
  rw [key.1]
  by_cases hopen : env.open_result path < 0
  · rw [if_pos hopen]
    simp only [List.not_mem_nil, false_iff]
    omega
  · rw [if_neg hopen]
    simp only [List.mem_singleton]
    constructor
    · intro h; exact ⟨by omega, h.symm⟩
    · intro h; exact h.2.symm

/-! ## The request reader: read errors and termination -/

/-- A read loop that is still running when its schedule of reads ends returns
through the read-error branch when the next read fails. -/
theorem service_loop_read_error (rest : List (Option Nat)) :
    ∀ (pre : List (Option Nat)) (stream buffer : List Char) (rb sc : Nat) (stores : List Nat),
      service_loop pre stream buffer rb sc stores = none →
      ∃ stores1, service_loop (pre ++ none :: rest) stream buffer rb sc stores
        = some ⟨.read_failed, stores1⟩ := by
  intro pre
  induction pre with
  | nil =>
    intro stream buffer rb sc stores h
    unfold service_loop at h
    split at h
    · rename_i hrb
      rw [List.nil_append]
      unfold service_loop
      rw [if_pos hrb]
      exact ⟨_, rfl⟩
    · simp at h
  | cons a p ih =>
    intro stream buffer rb sc stores h
    unfold service_loop at h
    split at h
    · rename_i hrb
      cases a with
      | none => simp at h
      | some avail =>
        simp only at h
        rw [List.cons_append]
        unfold service_loop
        rw [if_pos hrb]
        simp only
        split at h
        · rename_i hroom
          rw [if_pos hroom]
          split at h
          · simp at h
          · exact ih _ _ _ _ _ h
        · simp at h
    · simp at h

/-- C12: when the read loop is still running after the reads of `pre` (no read
failed, no terminator was found, the buffer is not full) and the next read
returns an error, `service` returns -1 at once through the read-error branch:
`process` is not called, and the only call on record is the diagnostic on
stderr, so nothing is written to the connection and no file is opened. -/
theorem C12_read_error (env : Env) (fd : Int) (buffer0 S : List Char)
    (pre rest : List (Option Nat)) (hrun : service_read buffer0 ⟨S, pre⟩ = none) :
    service env fd buffer0 ⟨S, pre ++ none :: rest⟩ = some (.ret (-1) [.perror]) ∧
    (∃ stores, service_read buffer0 ⟨S, pre ++ none :: rest⟩
      = some ⟨.read_failed, stores⟩) ∧
    written [] fd [Syscall.perror] = [] := by
  obtain ⟨stores, h⟩ := service_loop_read_error rest pre S buffer0 0 0 [] hrun
  have h1 : service_read buffer0 ⟨S, pre ++ none :: rest⟩ = some ⟨.read_failed, stores⟩ := h
  refine ⟨?_, ⟨stores, h1⟩, rfl⟩
  unfold service
  rw [h1]

/-- C12 at a concrete input: five bytes are received, then the read fails. -/
theorem C12_read_error_witness :
    service env_ok 4 buffer_zero ⟨"GET / HTTP/1.0".toList, [some 5] ++ none :: [some 9]⟩
      = some (.ret (-1) [.perror]) ∧
    (∃ stores, service_read buffer_zero
        ⟨"GET / HTTP/1.0".toList, [some 5] ++ none :: [some 9]⟩
      = some ⟨.read_failed, stores⟩) ∧
    written [] 4 [Syscall.perror] = [] :=
  C12_read_error env_ok 4 buffer_zero "GET / HTTP/1.0".toList [some 5] [some 9] (by decide)

/-- Reads that return no byte leave the loop running, however many there are. -/
theorem service_loop_zero_reads (stream : List Char) :
    ∀ (n : Nat) (buffer : List Char) (stores : List Nat),
      service_loop (List.replicate n (some 0)) stream buffer 0 0 stores = none := by
  intro n
  induction n with
  | zero =>
    intro buffer stores
    unfold service_loop
    rw [if_pos (by decide)]
    rfl
  | succ k ih =>
    intro buffer stores
    rw [List.replicate_succ]
    unfold service_loop
    rw [if_pos (by decide)]
    simp only [Nat.zero_min, List.take_zero, List.length_nil, Nat.add_zero, List.drop_zero]
    rw [if_pos (by decide)]
    unfold scan
    exact ih _ _

/-- C15 (defect in the code): 4095 reads of one byte each, every one making
progress.  The loop does end within those reads, but in none of the three
outcomes of the claim: the read that brings the count to 4095 stores the
terminator at index 4096, past the end of the array, which is undefined
behaviour, before the header-too-long exit can be taken. -/
theorem C15_last_read_overruns :
    ∃ run, service_read buffer_zero ⟨stream_full, (List.replicate 4095 1).map some⟩
        = some run ∧
      run.outcome = .undefined ∧ 4096 ∈ run.stores ∧
      run.outcome ≠ .read_failed ∧ run.outcome ≠ .header_too_long ∧
      ∀ buf, run.outcome ≠ .handed buf := by
  obtain ⟨stores1, h1, h2⟩ :=
    loop_overruns stream_full (le_of_eq (List.length_replicate _ _).symm)
      (fun q _ => is_term_no_cr stream_full
        (fun h => absurd (List.eq_of_mem_replicate h) (by decide)) q)
      (List.replicate 4095 1) (fun k hk => le_of_eq (List.eq_of_mem_replicate hk).symm)
      buffer_zero 0 [] (List.length_replicate _ _) (by decide) (fun i hi => by omega)
      (by rw [List.sum_replicate]; decide)
  exact ⟨_, h1, rfl, h2, by simp, by simp, fun buf => by simp⟩

/-! ## The listener and the supervisor -/

theorem after_after (a b : List MainCall) (x : Option Exit) :
    after a (after b x) = after (a ++ b) x := by
  cases x with
  | none => rfl
  | some e => simp [after, List.append_assoc]

theorem after_nil (x : Option Exit) : after [] x = x := by
  cases x with
  | none => rfl
  | some e => rfl

/-- Turns in which the parent goes on add their calls and lead to the rest of
the loop. -/
theorem main_loop_parents (s : Int) (more : List Round) :
    ∀ (parents : List Round), (∀ r ∈ parents, is_parent_round r) →
      main_loop s (parents ++ more) = after (parents_calls s parents) (main_loop s more) := by
  intro parents
  induction parents with
  | nil =>
    intro _
    rw [List.nil_append, parents_calls, after_nil]
  | cons r rest ih =>
    intro hall
    have hrest := ih (fun x hx => hall x (List.mem_cons_of_mem _ hx))
    obtain ⟨hacc, hfork⟩ := hall r (List.mem_cons_self _ _)
    have hnacc : ¬ r.accept_result < 0 := by omega
    rw [List.cons_append, main_loop, if_neg hnacc, parents_calls, parent_calls]
    rcases hfork with hneg | ⟨hpos, hreap⟩
    · rw [if_pos hneg, if_pos hneg, hrest, after_after]
    · have hnfork : ¬ r.fork_result < 0 := by omega
      have hpos1 : r.fork_result > 0 := hpos
      rw [if_neg hnfork, if_neg hnfork, if_pos hpos1]
      cases hr : reap r.waitpid_results with
      | none => rw [hr] at hreap; simp at hreap
      | some w =>
        simp only [Option.getD_some]
        rw [hrest, after_after]

/-- The calls of turns in which the parent goes on, followed by an accept,
start with an accept. -/
theorem parents_calls_head (s : Int) (tail : List MainCall) :
    ∀ (later : List Round),
      ∃ tl, parents_calls s later ++ MainCall.accept s :: tail = MainCall.accept s :: tl := by
  intro later
  cases later with
  | nil => exact ⟨tail, rfl⟩
  | cons r rest =>
    rw [parents_calls, parent_calls]
    split
    · exact ⟨_, rfl⟩
    · exact ⟨_, rfl⟩

theorem parents_calls_append (s : Int) (later : List Round) :
    ∀ (before : List Round),
      parents_calls s (before ++ later) = parents_calls s before ++ parents_calls s later := by
  intro before
  induction before with
  | nil => rfl
  | cons r rest ih => rw [List.cons_append, parents_calls, parents_calls, ih, List.append_assoc]

/-- C14: the exit status of `main`, and the calls it issues, as a function of
the results of its system calls.  The status is 1 when `socket`, `bind` or
`listen` fails.  When those three succeed, whatever `setsockopt` returned, and
after any number of turns in which the parent goes on (the fork failed, or a
child was forked and the reaping loop ended), the status is 254 in the parent
when `accept` fails and 0 in the worker when `fork` returns 0, whatever
`service` returns there.  In both cases a turn whose fork failed shows in the
calls of `main` as accept, fork, diagnostic, close of the accepted connection,
followed directly by the next accept. -/
theorem C14_exit_status (env : MainEnv) (parents : List Round) (final : Round)
    (rest : List Round) (hrounds : env.rounds = parents ++ final :: rest)
    (hparents : ∀ r ∈ parents, is_parent_round r) :
    (env.socket_result < 0 → main env = some ⟨1, false, [.socket, .perror]⟩) ∧
    (0 ≤ env.socket_result → env.bind_result < 0 →
      main env = some ⟨1, false, setup_calls env ++ [.bind env.socket_result, .perror]⟩) ∧
    (0 ≤ env.socket_result → 0 ≤ env.bind_result → env.listen_result < 0 →
      main env = some ⟨1, false, setup_calls env ++
        [.bind env.socket_result, .listen env.socket_result 10, .perror]⟩) ∧
    (0 ≤ env.socket_result → 0 ≤ env.bind_result → 0 ≤ env.listen_result →
      final.accept_result < 0 →
      main env = some ⟨254, false, setup_calls env ++
        [.bind env.socket_result, .listen env.socket_result 10] ++
        parents_calls env.socket_result parents ++
        [.accept env.socket_result, .perror]⟩) ∧
    (0 ≤ env.socket_result → 0 ≤ env.bind_result → 0 ≤ env.listen_result →
      0 ≤ final.accept_result → final.fork_result = 0 →
      main env = some ⟨0, true, setup_calls env ++
        [.bind env.socket_result, .listen env.socket_result 10] ++
        parents_calls env.socket_result parents ++
        [.accept env.socket_result, .fork, .close env.socket_result,
         .service final.accept_result]⟩) ∧
    (∀ (before : List Round) (r : Round) (later : List Round) (tail : List MainCall),
      parents = before ++ r :: later → r.fork_result < 0 →
      [MainCall.accept env.socket_result, .fork, .perror, .close r.accept_result,
        .accept env.socket_result] <:+:
        (setup_calls env ++ [.bind env.socket_result, .listen env.socket_result 10] ++
          parents_calls env.socket_result parents ++
          MainCall.accept env.socket_result :: tail)) := by
  have hloop := main_loop_parents env.socket_result (final :: rest) parents hparents
  have hmain : 0 ≤ env.socket_result → 0 ≤ env.bind_result → 0 ≤ env.listen_result →
      main env = after (setup_calls env ++
        [.bind env.socket_result, .listen env.socket_result 10] ++
        parents_calls env.socket_result parents)
        (main_loop env.socket_result (final :: rest)) := by
    intro h1 h2 h3
    have hn1 : ¬ env.socket_result < 0 := by omega
    have hn2 : ¬ env.bind_result < 0 := by omega
    have hn3 : ¬ env.listen_result < 0 := by omega
    unfold main
    rw [if_neg hn1]
    simp only
    rw [if_neg hn2, if_neg hn3, hrounds, hloop, after_after]
    rfl
  refine ⟨?_, ?_, ?_, ?_, ?_, ?_⟩
  · intro h1
    unfold main
    rw [if_pos h1]
  · intro h1 h2
    have hn1 : ¬ env.socket_result < 0 := by omega
    unfold main
    rw [if_neg hn1]
    simp only
    rw [if_pos h2]
    rfl
  · intro h1 h2 h3
    have hn1 : ¬ env.socket_result < 0 := by omega
    have hn2 : ¬ env.bind_result < 0 := by omega
    unfold main
    rw [if_neg hn1]
    simp only
    rw [if_neg hn2, if_pos h3]
    rfl
  · intro h1 h2 h3 hacc
    rw [hmain h1 h2 h3, main_loop, if_pos hacc]
    rfl
  · intro h1 h2 h3 hacc hfork
    have hn4 : ¬ final.accept_result < 0 := by omega
    have hn5 : ¬ final.fork_result < 0 := by omega
    have hn6 : ¬ final.fork_result > 0 := by omega
    rw [hmain h1 h2 h3, main_loop, if_neg hn4, if_neg hn5, if_neg hn6]
    rfl
  · intro before r later tail hsplit hfork
    obtain ⟨tl, htl⟩ := parents_calls_head env.socket_result tail later
    have hr : parent_calls env.socket_result r
        = [.accept env.socket_result, .fork, .perror, .close r.accept_result] := by
      rw [parent_calls, if_pos hfork]
    refine ⟨setup_calls env ++ [.bind env.socket_result, .listen env.socket_result 10] ++
      parents_calls env.socket_result before, tl, ?_⟩
    rw [hsplit, parents_calls_append, parents_calls, hr]
    simp only [List.append_assoc, List.cons_append, List.nil_append, htl]

/-- C14 at a concrete input: `setsockopt` fails, the first fork fails and the
second `accept` fails.  The parent exits with status 254, and its calls show
the connection 4 closed after the failed fork, then the next accept. -/
theorem C14_exit_status_witness :
    main env_fork_fails
      = some ⟨254, false, [.socket, .setsockopt 3, .perror, .bind 3, .listen 3 10,
          .accept 3, .fork, .perror, .close 4, .accept 3, .perror]⟩ ∧
    [MainCall.accept 3, .fork, .perror, .close 4, .accept 3] <:+:
      [MainCall.socket, .setsockopt 3, .perror, .bind 3, .listen 3 10,
        .accept 3, .fork, .perror, .close 4, .accept 3, .perror] :=
  ⟨(C14_exit_status env_fork_fails [⟨4, -1, 0, []⟩] ⟨-1, 0, 0, []⟩ [] rfl
      (by decide)).2.2.2.1 (by decide) (by decide) (by decide) (by decide),
   (C14_exit_status env_fork_fails [⟨4, -1, 0, []⟩] ⟨-1, 0, 0, []⟩ [] rfl
      (by decide)).2.2.2.2.2 [] ⟨4, -1, 0, []⟩ [] [.perror] rfl (by decide)⟩

end Httpd
